import Mathlib

/-!
Shallow embedding of the graph-editor core (knifest17/graph-editor):
the node/port/link data model (`src/types.ts`), the connection validator
(`src/store.ts`), the template code generator (`src/codegen.ts`) and the
graph (de)serialization (`GraphEditor.loadGraph`).

Modelling conventions:
* JavaScript numbers used as entity ids are modelled as `Int`
  (counters only ever produce non-negative values, but serialized
  documents may carry arbitrary integers).
* Geometric state (port/node `x`, `y`, `width`, `height`) is
  floating-point display data that is never consulted by the validator,
  the generator or the loader; it is omitted from the embedding.
* JavaScript object identity (`===`) on nodes and links is modelled by
  structural equality of the corresponding Lean values.
* `undefined` optional fields are modelled with `Option`.
* The possibly non-terminating recursion of the code generator is
  modelled with an explicit fuel argument; a `none` result means the
  computation did not finish within the given fuel, and divergence of
  the source program corresponds to `none` for every fuel.
* JavaScript `String.prototype.replace` with a `g`-flagged pattern is
  modelled by single left-to-right non-overlapping scans implemented on
  `List Char` (the replacement text is not rescanned, matching JS).
  Dollar-escape expansion (`$&` etc.) inside a *string* replacement
  argument is not modelled; no claim depends on it.
-/

namespace GraphEd

/-- Scalar or structured node value (`GraphNode.value : unknown`).
A structured value carries its JSON-serialized form: `JSON.stringify`
is modelled by returning that stored serialization. -/
inductive JSValue where
  | str (s : String)
  | int (n : Int)
  | bool (b : Bool)
  | obj (json : String)
deriving DecidableEq, Repr

/-- `String(v)` for scalars, `JSON.stringify(v)` for structured values,
as used for `${value}` substitution in `codegen.ts`. -/
def renderValue : JSValue → String
  | .str s => s
  | .int n => toString n
  | .bool b => if b then "true" else "false"
  | .obj j => j

/-- `Port` (src/types.ts).  The derived `x`/`y` position and the
UI-only `dynamic` naming hint are omitted (never read by the core). -/
structure Port where
  type : String
  name : Option String := none
  code : Option String := none
  implicit : Bool := false
deriving DecidableEq, Repr

/-- The `'input' | 'output'` direction tag of a `PortInfo`. -/
inductive PortDir where
  | input
  | output
deriving DecidableEq, Repr

/-- `GraphNode` (src/types.ts).  Geometry (`x`,`y`,`width`,`height`) is
omitted as derived display state. -/
structure GraphNode where
  id : Int
  title : String := ""
  category : String
  type : String
  selected : Bool := false
  color : String := ""
  inputs : Option (List Port) := none
  outputs : Option (List Port) := none
  execOutPortCount : Nat := 0
  hasValue : Bool := false
  valueType : Option String := none
  value : Option JSValue := none
deriving DecidableEq, Repr

/-- `PortInfo` (src/types.ts): node + direction + index + port record. -/
structure PortInfo where
  node : GraphNode
  index : Nat
  type : PortDir
  port : Port
deriving DecidableEq, Repr

/-- `GraphLink` (src/types.ts). -/
structure GraphLink where
  id : Int
  fromPort : PortInfo
  toPort : PortInfo
  selected : Bool := false
deriving DecidableEq, Repr

/-- The `value` slot of a `NodeTypeDefinition`. -/
structure ValueDef where
  type : String
  default : Option JSValue := none
deriving DecidableEq, Repr

/-- `NodeTypeDefinition` (src/types.ts); `style.minWidth` omitted
(geometry only). -/
structure NodeTypeDefinition where
  title : String := ""
  category : String := ""
  color : Option String := none
  description : Option String := none
  inputs : Option (List Port) := none
  outputs : Option (List Port) := none
  value : Option ValueDef := none
deriving DecidableEq, Repr

/-- `CategoryDefinition` (src/types.ts).  The JS `Record` keyed by type
name is modelled as an association list in insertion order. -/
structure CategoryDefinition where
  color : String := ""
  nodes : Option (List (String × NodeTypeDefinition)) := none
deriving DecidableEq, Repr

/-- The slice of `EditorStore` (src/store.ts) consulted by the
validator, the generator and the loader.  `dataTypes`, camera,
viewport, interaction and UI state are never read by them and are
omitted. -/
structure EditorStore where
  registryLoaded : Bool := false
  nodeCategories : List (String × CategoryDefinition) := []
  nodes : List GraphNode := []
  links : List GraphLink := []
  nodeIdCounter : Int := 0
  linkIdCounter : Int := 0
deriving DecidableEq, Repr

/-- First-match lookup in an association list (JS `Record` access). -/
def lookupAssoc {α : Type} (m : List (String × α)) (k : String) : Option α :=
  match m with
  | [] => none
  | (k', v) :: rest => if k' = k then some v else lookupAssoc rest k

/-- `EditorStore.clear` (src/store.ts:63-70); the interaction-state
resets touch fields outside the embedded slice. -/
def clear (st : EditorStore) : EditorStore :=
  { st with nodes := [], links := [], nodeIdCounter := 0, linkIdCounter := 0 }

/-- `EditorStore.canConnectTypes` (src/store.ts:78-108). -/
def canConnectTypes (fromType toType : String) : Bool :=
  if fromType = "exec" ∧ toType = "exec" then true
  else if fromType = "exec" ∨ toType = "exec" then false
  else if fromType = toType then true
  else if toType = "data" then true
  else if fromType = "data" ∧ toType ≠ "data" then false
  else false

/-- `EditorStore.canConnect` (src/store.ts:117-161). -/
def canConnect (st : EditorStore) (a b : PortInfo) : Bool :=
  if a.node = b.node then false
  else if a.type = b.type then false
  else
    let outputPort := if a.type = PortDir.output then a else b
    let inputPort := if a.type = PortDir.input then a else b
    if ¬ (canConnectTypes outputPort.port.type inputPort.port.type = true) then false
    else if st.links.any (fun l => decide (
        (l.fromPort.node = outputPort.node ∧ l.fromPort.index = outputPort.index ∧
         l.toPort.node = inputPort.node ∧ l.toPort.index = inputPort.index) ∨
        (l.fromPort.node = inputPort.node ∧ l.fromPort.index = inputPort.index ∧
         l.toPort.node = outputPort.node ∧ l.toPort.index = outputPort.index))) then false
    else if inputPort.port.type ≠ "exec" ∧ st.links.any (fun l => decide (
        l.toPort.node = inputPort.node ∧ l.toPort.index = inputPort.index ∧
        l.toPort.type = PortDir.input)) then false
    else true

/-- Validity of a single link in `validateConnections`: both endpoint
nodes still exist in the graph and the port kinds are compatible
(src/store.ts:178-191). -/
def linkValid (st : EditorStore) (l : GraphLink) : Bool :=
  st.nodes.any (fun n => decide (n = l.fromPort.node)) &&
  st.nodes.any (fun n => decide (n = l.toPort.node)) &&
  canConnectTypes l.fromPort.port.type l.toPort.port.type

/-- The string key `` `${node.id}-${index}` `` for the exec-output
connection map (src/store.ts:195). -/
def execKey (l : GraphLink) : String :=
  toString l.fromPort.node.id ++ "-" ++ toString l.fromPort.index

/-- The string key for the data-input connection map (src/store.ts:204). -/
def dataKey (l : GraphLink) : String :=
  toString l.toPort.node.id ++ "-" ++ toString l.toPort.index

/-- Insertion-ordered multimap update: JS `Map.get(key).push(link)`
with `Map.set(key, [])` on first sight. -/
def mapAdd (m : List (String × List GraphLink)) (k : String) (l : GraphLink) :
    List (String × List GraphLink) :=
  match m with
  | [] => [(k, [l])]
  | (k', ls) :: rest =>
    if k' = k then (k', ls ++ [l]) :: rest else (k', ls) :: mapAdd rest k l

/-- Accumulator of the first pass of `validateConnections`. -/
structure VCAcc where
  invalid : List GraphLink := []
  execOut : List (String × List GraphLink) := []
  dataIn : List (String × List GraphLink) := []
deriving DecidableEq, Repr

/-- First pass of `validateConnections` (src/store.ts:175-214): walk
the links in order, collecting invalid ones and grouping the valid
ones by exec-output key and by data-input key. -/
def vcPass1 (st : EditorStore) : List GraphLink → VCAcc → VCAcc
  | [], acc => acc
  | l :: ls, acc =>
    vcPass1 st ls
      (if linkValid st l then
        { acc with
          execOut := if l.fromPort.port.type = "exec" then mapAdd acc.execOut (execKey l) l
                     else acc.execOut,
          dataIn := if l.toPort.port.type ≠ "exec" then mapAdd acc.dataIn (dataKey l) l
                    else acc.dataIn }
      else { acc with invalid := acc.invalid ++ [l] })

/-- Second pass of `validateConnections` (src/store.ts:217-238): for
each group of size > 1 keep the first link and mark the rest invalid,
skipping links already marked. -/
def vcAddDups (groups : List (String × List GraphLink)) (invalid : List GraphLink) :
    List GraphLink :=
  match groups with
  | [] => invalid
  | (_, ls) :: rest =>
    vcAddDups rest
      (if ls.length > 1 then
        (ls.drop 1).foldl
          (fun inv l => if l ∈ inv then inv else inv ++ [l]) invalid
      else invalid)

/-- `EditorStore.validateConnections` (src/store.ts:168-246): returns
the removed links and the repaired store. -/
def validateConnections (st : EditorStore) : List GraphLink × EditorStore :=
  let acc := vcPass1 st st.links {}
  let invalid := vcAddDups acc.dataIn (vcAddDups acc.execOut acc.invalid)
  if invalid.length > 0 then
    (invalid, { st with links := st.links.filter (fun l => decide (l ∉ invalid)) })
  else
    (invalid, st)

/-- A duplicate-tracking group as an optional value: the maps built by
`validateConnections` hold a key exactly when its group is non-empty. -/
def optGroup (xs : List GraphLink) : Option (List GraphLink) :=
  if xs = [] then none else some xs

/-- Links of `ls` that are valid, tracked by the given predicate and
grouped under key `k` — the group contents of the first pass of
`validateConnections`. -/
def grpFilter (st : EditorStore) (track : GraphLink → Bool) (key : GraphLink → String)
    (k : String) (ls : List GraphLink) : List GraphLink :=
  ls.filter (fun l => linkValid st l && track l && decide (key l = k))

/-- Exec-output tracking condition (src/store.ts:194). -/
def execTrack (l : GraphLink) : Bool :=
  decide (l.fromPort.port.type = "exec")

/-- Data-input tracking condition (src/store.ts:203). -/
def dataTrack (l : GraphLink) : Bool :=
  decide (l.toPort.port.type ≠ "exec")

/-- Coherence of a connection-tracking map with its group function:
lookups return the non-empty groups, every entry holds its key's
group, and keys are unique. -/
def MapInv (m : List (String × List GraphLink)) (f : String → List GraphLink) : Prop :=
  (∀ k, lookupAssoc m k = optGroup (f k)) ∧
  (∀ p ∈ m, p.2 = f p.1) ∧
  (m.map Prod.fst).Nodup

/-! ### String scanning primitives

JS `String.prototype.replace` with a global pattern: one left-to-right
non-overlapping scan of the subject; the replacement is not rescanned.
Each scanner carries a fuel that is instantiated with the subject
length, which is always sufficient since every step consumes at least
one character. -/

/-- Global replacement of a literal pattern (the `escapeRegExp`-escaped
placeholder patterns of codegen.ts always match literally). -/
def replaceAllL (pat repl : List Char) : Nat → List Char → List Char
  | 0, s => s
  | _ + 1, [] => []
  | fuel + 1, c :: rest =>
    if pat.isPrefixOf (c :: rest) && !pat.isEmpty then
      repl ++ replaceAllL pat repl fuel ((c :: rest).drop pat.length)
    else
      c :: replaceAllL pat repl fuel rest

/-- `replaceAllL` at its sufficient fuel. -/
def replaceAllC (pat repl s : List Char) : List Char :=
  replaceAllL pat repl s.length s

/-- JS `next.split('\n')`. -/
def splitNl : List Char → List (List Char)
  | [] => [[]]
  | c :: rest =>
    if c = '\n' then [] :: splitNl rest
    else
      match splitNl rest with
      | [] => [[c]]
      | l :: ls => (c :: l) :: ls

/-- Match `\$\{[^}]+\}` at the head of the subject, returning the
remainder after the match. -/
def matchPh : List Char → Option (List Char)
  | '$' :: '\x7b' :: r =>
    let nm := r.takeWhile (fun c => c != '\x7d')
    if nm.isEmpty then none
    else
      match r.drop nm.length with
      | '\x7d' :: r2 => some r2
      | _ => none
  | _ => none

/-- Match `(\n)?([\t ]*)` followed by the literal placeholder `ph` at
the head of the subject (the pattern of codegen.ts:128).  Returns the
newline flag, the captured indentation and the remainder.  When the
subject starts with a newline but the rest fails to match, the
newline-less alternative cannot match either, because the placeholder
starts with `$`. -/
def matchExecPh (ph s : List Char) : Option (Bool × List Char × List Char) :=
  let nl : Bool := match s with | '\n' :: _ => true | _ => false
  let s1 := match s with | '\n' :: r => r | _ => s
  let ind := s1.takeWhile (fun c => c == '\t' || c == ' ')
  let s2 := s1.dropWhile (fun c => c == '\t' || c == ' ')
  if ph.isPrefixOf s2 && !ph.isEmpty then some (nl, ind, s2.drop ph.length)
  else none

/-- The splice of one exec-output placeholder (codegen.ts:127-139):
empty downstream text erases the matched region, otherwise each
downstream line is prefixed with the captured indentation and the
captured newline is preserved. -/
def spliceOneL (ph next : List Char) : Nat → List Char → List Char
  | 0, s => s
  | _ + 1, [] => []
  | fuel + 1, c :: rest =>
    match matchExecPh ph (c :: rest) with
    | some (nl, ind, after) =>
      (if next.isEmpty then []
       else
         (if nl then ['\n'] else []) ++
         List.intercalate ['\n'] ((splitNl next).map (fun l => ind ++ l))) ++
      spliceOneL ph next fuel after
    | none => c :: spliceOneL ph next fuel rest

/-- `spliceOneL` at its sufficient fuel. -/
def spliceOneC (ph next s : List Char) : List Char :=
  spliceOneL ph next s.length s

/-- Strip `/\n[ \t]*\$\{[^}]+\}/g` (codegen.ts:143, first replace). -/
def stripNlPh : Nat → List Char → List Char
  | 0, s => s
  | _ + 1, [] => []
  | fuel + 1, c :: rest =>
    if c = '\n' then
      match matchPh (rest.dropWhile (fun c2 => c2 == '\t' || c2 == ' ')) with
      | some after => stripNlPh fuel after
      | none => c :: stripNlPh fuel rest
    else c :: stripNlPh fuel rest

/-- `stripNlPh` at its sufficient fuel. -/
def stripNlPhC (s : List Char) : List Char :=
  stripNlPh s.length s

/-- Strip `/\$\{[^}]+\}/g` (codegen.ts:143, second replace). -/
def stripPh : Nat → List Char → List Char
  | 0, s => s
  | _ + 1, [] => []
  | fuel + 1, c :: rest =>
    match matchPh (c :: rest) with
    | some after => stripPh fuel after
    | none => c :: stripPh fuel rest

/-- `stripPh` at its sufficient fuel. -/
def stripPhC (s : List Char) : List Char :=
  stripPh s.length s

/-- Whether the string contains a `${...}` placeholder substring
(a match of `/\$\{[^}]+\}/`). -/
def hasPlaceholder : List Char → Bool
  | [] => false
  | c :: rest => (matchPh (c :: rest)).isSome || hasPlaceholder rest

/-! ### Code generator (src/codegen.ts) -/

/-- Category scan of `CodeGenerator.findNodeType` (codegen.ts:48-57). -/
def findNodeTypeGo (ty : String) : List (String × CategoryDefinition) → Option NodeTypeDefinition
  | [] => none
  | (_, c) :: rest =>
    match c.nodes with
    | none => findNodeTypeGo ty rest
    | some catalog =>
      match lookupAssoc catalog ty with
      | some t => some t
      | none => findNodeTypeGo ty rest

/-- `CodeGenerator.findNodeType` (codegen.ts:48-57): first category, in
insertion order, whose node table has the key. -/
def findNodeType (st : EditorStore) (ty : String) : Option NodeTypeDefinition :=
  findNodeTypeGo ty st.nodeCategories

/-- Links feeding the node's non-exec inputs (codegen.ts:80-82 and
113-115). -/
def dataLinks (st : EditorStore) (node : GraphNode) : List GraphLink :=
  st.links.filter (fun l => decide (l.toPort.node = node ∧ l.toPort.port.type ≠ "exec"))

/-- Outgoing exec links of the node (codegen.ts:122-124). -/
def execLinks (st : EditorStore) (node : GraphNode) : List GraphLink :=
  st.links.filter (fun l => decide (l.fromPort.node = node ∧ l.fromPort.port.type = "exec"))

/-- The placeholder text `` `${port.name}` `` of a port; a JS template
literal renders an `undefined` name as the string `undefined`. -/
def phOf (p : Port) : List Char :=
  ("$\x7b" ++ p.name.getD "undefined" ++ "\x7d").data

/-- The literal pattern `${nodeId}`. -/
def nodeIdPat : List Char :=
  "$\x7bnodeId\x7d".data

/-- `${value}` substitution (codegen.ts:72-78 and 104-110): performed
when the node has a value slot and the value is not `undefined`. -/
def valueSubst (node : GraphNode) (code : List Char) : List Char :=
  if node.hasValue then
    match node.value with
    | some v => replaceAllC "$\x7bvalue\x7d".data (renderValue v).data code
    | none => code
  else code

/-- Output-definition selection of `getNodeOutputCode`
(codegen.ts:63-68): the first catalog output whose name equals the
requested port's name *or* whose kind equals the requested port's
kind; `none` when there is no such output or it carries no template
string. -/
def outDefCode (d : NodeTypeDefinition) (port : Port) : Option String :=
  match d.outputs with
  | none => none
  | some outs =>
    match outs.find? (fun o => decide (o.name = port.name) || decide (o.type = port.type)) with
    | none => none
    | some o => o.code

/-- Exec-input template selection of `generateNodeCode`
(codegen.ts:99-100). -/
def execInCode (d : NodeTypeDefinition) : Option String :=
  match d.inputs with
  | none => none
  | some ins =>
    match ins.find? (fun i => decide (i.type = "exec")) with
    | none => none
    | some p => p.code

/-- The data-input substitution loop shared by `getNodeOutputCode` and
`generateNodeCode`, parameterized by the recursive resolver.  The
resolver is invoked for every link whether or not its placeholder
occurs in the template, exactly as in the source. -/
def resolveDataWith (recur : GraphNode → Port → Option String) :
    List GraphLink → List Char → Option (List Char)
  | [], code => some code
  | l :: ls, code =>
    match recur l.fromPort.node l.fromPort.port with
    | none => none
    | some v => resolveDataWith recur ls (replaceAllC (phOf l.toPort.port) v.data code)

/-- Trailing `${nodeId}` substitution of `getNodeOutputCode`
(codegen.ts:87). -/
def finishOut (node : GraphNode) (code : List Char) : String :=
  ⟨replaceAllC nodeIdPat (toString node.id).data code⟩

/-- `CodeGenerator.getNodeOutputCode` (codegen.ts:62-88).  The data
value resolution recurses through links with no cycle guard; the fuel
argument makes the embedding total, `none` marking a computation that
did not finish within the fuel. -/
def getNodeOutputCode (st : EditorStore) : Nat → GraphNode → Port → Option String
  | 0, _, _ => none
  | fuel + 1, node, port =>
    match findNodeType st node.type with
    | none => some ""
    | some d =>
      match outDefCode d port with
      | none => some ""
      | some tmpl =>
        (resolveDataWith (fun n2 p2 => getNodeOutputCode st fuel n2 p2)
          (dataLinks st node) (valueSubst node tmpl.data)).map (finishOut node)

/-- The exec-output splice loop of `generateNodeCode`
(codegen.ts:122-140), parameterized by the recursive compiler.  The
downstream node is compiled once per link, before the splice, and the
visited set threads through the loop — mirroring the mutation of the
shared JS `Set`. -/
def spliceExecWith (recur : GraphNode → List Int → Option (String × List Int)) :
    List GraphLink → List Char → List Int → Option (List Char × List Int)
  | [], code, pr => some (code, pr)
  | l :: ls, code, pr =>
    match recur l.toPort.node pr with
    | none => none
    | some (next, pr') =>
      spliceExecWith recur ls (spliceOneC (phOf l.fromPort.port) next.data code) pr'

/-- Trailing substitutions of `generateNodeCode` (codegen.ts:142-144):
`${nodeId}`, then the two unresolved-placeholder strips. -/
def finishNode (node : GraphNode) (code : List Char) : String :=
  ⟨stripPhC (stripNlPhC (replaceAllC nodeIdPat (toString node.id).data code))⟩

/-- `CodeGenerator.generateNodeCode` (codegen.ts:93-145).  The visited
set (`processed`) is threaded explicitly; the node id is added on
entry, before any recursion. -/
def generateNodeCode (st : EditorStore) : Nat → GraphNode → List Int → Option (String × List Int)
  | 0, _, _ => none
  | fuel + 1, node, processed =>
    if node.id ∈ processed then some ("", processed)
    else
      let pr := node.id :: processed
      match findNodeType st node.type with
      | none => some ("", pr)
      | some d =>
        match execInCode d with
        | none => some ("", pr)
        | some tmpl =>
          match resolveDataWith (fun n2 p2 => getNodeOutputCode st fuel n2 p2)
              (dataLinks st node) (valueSubst node tmpl.data) with
          | none => none
          | some code =>
            match spliceExecWith (fun n2 pr2 => generateNodeCode st fuel n2 pr2)
                (execLinks st node) code pr with
            | none => none
            | some (code2, pr2) => some (finishNode node code2, pr2)

/-- The entry filter of `CodeGenerator.generate` (codegen.ts:20-29):
the catalog definition has an exec input port, and no link arrives at
the node on an exec-kind port. -/
def isEntry (st : EditorStore) (n : GraphNode) : Bool :=
  match findNodeType st n.type with
  | none => false
  | some d =>
    match d.inputs with
    | none => false
    | some ins =>
      ins.any (fun i => decide (i.type = "exec")) &&
      !(st.links.any (fun l => decide (l.toPort.node = n ∧ l.toPort.port.type = "exec")))

/-- The entry nodes of the graph, in node order. -/
def entryNodes (st : EditorStore) : List GraphNode :=
  st.nodes.filter (isEntry st)

/-- The per-entry compilation fold of `generate` (codegen.ts:38-41),
threading the shared visited set across entries. -/
def genEntries (recur : GraphNode → List Int → Option (String × List Int)) :
    List GraphNode → List Int → Option (List String × List Int)
  | [], pr => some ([], pr)
  | e :: es, pr =>
    match recur e pr with
    | none => none
    | some (s, pr') =>
      match genEntries recur es pr' with
      | none => none
      | some (ss, pr2) => some (s :: ss, pr2)

/-- The header comment of `generate` (codegen.ts:37); the timestamp is
an external input. -/
def header (now : String) : String :=
  "// Generated Code from Node Graph\n// Generated on: " ++ now ++ "\n\n"

/-- `CodeGenerator.generate` (codegen.ts:18-43): fails with the
no-entry-point error before any compilation when no entry node exists;
otherwise compiles every entry with a shared visited set and joins the
non-empty pieces with blank lines under the header. -/
def generate (st : EditorStore) (now : String) (fuel : Nat) : Option (Except String String) :=
  if (entryNodes st).isEmpty then
    some (Except.error "No entry point nodes (exec input without incoming exec).")
  else
    match genEntries (fun n pr => generateNodeCode st fuel n pr) (entryNodes st) [] with
    | none => none
    | some (ss, _) =>
      some (Except.ok
        (header now ++ String.intercalate "\n\n" (ss.filter (fun s => decide (s ≠ "")))))

/-! ### Serialization (GraphEditor.loadGraph) -/

/-- `SerializedNode` (src/types.ts); `x`/`y` omitted as geometry. -/
structure SerializedNode where
  id : Int
  type : String
  category : String
  value : Option JSValue := none
deriving DecidableEq, Repr

/-- One endpoint of a `SerializedConnection` (src/types.ts). -/
structure SerializedEndpoint where
  nodeId : Int
  portIndex : Nat
  portType : PortDir
deriving DecidableEq, Repr

/-- `SerializedConnection` (src/types.ts). -/
structure SerializedConnection where
  id : Int
  fromEp : SerializedEndpoint
  toEp : SerializedEndpoint
deriving DecidableEq, Repr

/-- `GraphData` (src/types.ts); metadata fields omitted (never read by
`loadGraph`). -/
structure GraphData where
  nodes : List SerializedNode := []
  connections : List SerializedConnection := []
deriving DecidableEq, Repr

/-- The `GraphNodeImpl` constructor (src/models/GraphNode.ts:25-91).
The id counter is consumed *before* the registry lookup, so a failed
construction still advances it; a failure is the constructor's thrown
`definition not found` error.  Geometry computation is omitted. -/
def mkGraphNode (category ty : String) (st : EditorStore) : Option GraphNode × EditorStore :=
  let nid := st.nodeIdCounter
  let st' := { st with nodeIdCounter := nid + 1 }
  if st'.registryLoaded then
    match lookupAssoc st'.nodeCategories category with
    | none => (none, st')
    | some cat =>
      match cat.nodes with
      | none => (none, st')
      | some catalog =>
        match lookupAssoc catalog ty with
        | none => (none, st')
        | some d =>
          let outs := d.outputs.map (fun ps => ps.filter (fun p => !p.implicit))
          (some
            { id := nid
              title := d.title
              category := category
              type := ty
              color := d.color.getD cat.color
              inputs := d.inputs.map (fun ps => ps.filter (fun p => !p.implicit))
              outputs := outs
              execOutPortCount := (outs.getD []).countP (fun p => decide (p.type = "exec"))
              hasValue := d.value.isSome
              valueType := d.value.map (fun v => v.type)
              value := d.value.bind (fun v => v.default) }, st')
  else (none, st')

/-- JS `Map.set` on the node map of `loadGraph` (overwrite or append). -/
def mapSetNode (m : List (Int × GraphNode)) (k : Int) (v : GraphNode) : List (Int × GraphNode) :=
  match m with
  | [] => [(k, v)]
  | (k', v') :: rest =>
    if k' = k then (k, v) :: rest else (k', v') :: mapSetNode rest k v

/-- JS `Map.get` on the node map of `loadGraph`. -/
def mapGetNode (m : List (Int × GraphNode)) (k : Int) : Option GraphNode :=
  match m with
  | [] => none
  | (k', v) :: rest => if k' = k then some v else mapGetNode rest k

/-- One iteration of the node-restore loop of `loadGraph`
(part_001:390-412): construct from the catalog (skipping the entity on
failure), overwrite the id with the serialized one, optionally
overwrite the value, and advance the id counter past the restored id. -/
def loadNode (s : SerializedNode) :
    EditorStore × List (Int × GraphNode) → EditorStore × List (Int × GraphNode)
  | (st, m) =>
    match mkGraphNode s.category s.type st with
    | (none, st') => (st', m)
    | (some node0, st') =>
      let node := { node0 with
        id := s.id
        value := match s.value with | some v => some v | none => node0.value }
      let st'' := { st' with
        nodes := st'.nodes ++ [node]
        nodeIdCounter := if s.id ≥ st'.nodeIdCounter then s.id + 1 else st'.nodeIdCounter }
      (st'', mapSetNode m node.id node)

/-- The node-restore loop of `loadGraph`. -/
def loadNodes : List SerializedNode →
    EditorStore × List (Int × GraphNode) → EditorStore × List (Int × GraphNode)
  | [], acc => acc
  | s :: ss, acc => loadNodes ss (loadNode s acc)

/-- `node.outputs?.[i]` / `node.inputs?.[i]` endpoint resolution of the
connection-restore loop (part_001:421-431). -/
def endpointPort (n : GraphNode) (dir : PortDir) (idx : Nat) : Option Port :=
  (match dir with
   | PortDir.output => n.outputs
   | PortDir.input => n.inputs).bind (fun ps => ps.get? idx)

/-- One iteration of the connection-restore loop of `loadGraph`
(part_001:415-457): skip when either endpoint's node id is absent from
the map or the port index is out of range; otherwise construct the
link (`GraphLinkImpl` consumes a link id from the counter before the
serialized id overwrites it) and advance the link counter past the
restored id. -/
def loadConn (m : List (Int × GraphNode)) (st : EditorStore) (c : SerializedConnection) :
    EditorStore :=
  match mapGetNode m c.fromEp.nodeId, mapGetNode m c.toEp.nodeId with
  | some fn, some tn =>
    match endpointPort fn c.fromEp.portType c.fromEp.portIndex,
        endpointPort tn c.toEp.portType c.toEp.portIndex with
    | some fp, some tp =>
      let st' := { st with linkIdCounter := st.linkIdCounter + 1 }
      let link : GraphLink :=
        { id := c.id
          fromPort := { node := fn, index := c.fromEp.portIndex, type := c.fromEp.portType, port := fp }
          toPort := { node := tn, index := c.toEp.portIndex, type := c.toEp.portType, port := tp } }
      { st' with
        links := st'.links ++ [link]
        linkIdCounter := if c.id ≥ st'.linkIdCounter then c.id + 1 else st'.linkIdCounter }
    | _, _ => st
  | _, _ => st

/-- The connection-restore loop of `loadGraph`. -/
def loadConns (m : List (Int × GraphNode)) : List SerializedConnection → EditorStore → EditorStore
  | [], st => st
  | c :: cs, st => loadConns m cs (loadConn m st c)

/-- The restore phase of `loadGraph`: the state after the node and
connection loops, before the final `validateConnections` repair. -/
def loadGraphBody (st : EditorStore) (g : GraphData) : EditorStore :=
  let acc := loadNodes g.nodes (st, [])
  loadConns acc.2 g.connections acc.1

/-- `GraphEditor.loadGraph` (part_001:385-461): clear the document,
restore nodes and connections per-entity, then run the
`validateConnections` repair performed by the trailing
`_emitGraphChanged()` call (part_001:460 and 574-588) before the
method returns.  The console warning and the `graph-changed` event
dispatch of `_emitGraphChanged` are I/O and not modelled. -/
def loadGraph (st : EditorStore) (g : GraphData) : EditorStore :=
  (validateConnections (loadGraphBody (clear st) g)).2

/-! ### Specification-side definitions

These definitions follow the spec's words and exist to be compared
with the definitions embedded from the source. -/

/-- The `typesCompatible` decision table exactly as the spec words it
(§4.3), read top to bottom: `exec`↔`exec` → true; exactly one side
`exec` → false; equal kinds → true; `toKind == "data"` → true;
`fromKind == "data" && toKind != "data"` → false; any other unequal
pair → false. -/
def typesCompatibleSpec (fromKind toKind : String) : Bool :=
  if fromKind = "exec" ∧ toKind = "exec" then true
  else if (fromKind = "exec") ≠ (toKind = "exec") then false
  else if fromKind = toKind then true
  else if toKind = "data" then true
  else if fromKind = "data" ∧ toKind ≠ "data" then false
  else false

/-- Output-definition selection as the spec describes it ("matched by
name, falling back to kind"): first search by name alone, and only
when no output matches the name, search by kind. -/
def outDefCodeNameFirst (d : NodeTypeDefinition) (port : Port) : Option String :=
  match d.outputs with
  | none => none
  | some outs =>
    match outs.find? (fun o => decide (o.name = port.name)) with
    | some o => o.code
    | none =>
      match outs.find? (fun o => decide (o.type = port.type)) with
      | some o => o.code
      | none => none

/-- The data-flow dependency relation of the graph: `DataEdge st b a`
holds when some link feeds a non-exec input of `a` from a port of `b`,
i.e. resolving `a`'s output code recurses into `b`.  The claim's
"acyclic data-link dependency relation" is rendered as
well-foundedness of this relation, the two being equivalent for the
finitely many linked nodes. -/
def DataEdge (st : EditorStore) (b a : GraphNode) : Prop :=
  ∃ l, l ∈ st.links ∧ l.toPort.node = a ∧ l.toPort.port.type ≠ "exec" ∧ l.fromPort.node = b

/-- The ids of all nodes reachable as the target of an exec link —
the only nodes the exec-splice recursion of `generateNodeCode` can
descend into. -/
def execTargetIds (st : EditorStore) : Finset Int :=
  ((st.links.filter (fun l => decide (l.fromPort.port.type = "exec"))).map
    (fun l => l.toPort.node.id)).toFinset

/-- The per-entity node restoration of `loadGraph`, as a function of
the registry alone: the serialized node restores to a catalog-built
node carrying the serialized id (and the serialized value when
present), or to nothing when the catalog lookup fails. -/
def restoredNode (reg : Bool) (cats : List (String × CategoryDefinition))
    (s : SerializedNode) : Option GraphNode :=
  match (mkGraphNode s.category s.type
      { registryLoaded := reg, nodeCategories := cats }).1 with
  | none => none
  | some node0 =>
    some { node0 with
      id := s.id
      value := match s.value with | some v => some v | none => node0.value }

/-- The node map built by the restore loop: nodes in restore order,
last write per id wins. -/
def nodeMapOfAux (m : List (Int × GraphNode)) : List GraphNode → List (Int × GraphNode)
  | [] => m
  | n :: ns => nodeMapOfAux (mapSetNode m n.id n) ns

/-- The node map of a restored node list. -/
def nodeMapOf (ns : List GraphNode) : List (Int × GraphNode) :=
  nodeMapOfAux [] ns

/-- The per-entity connection restoration of `loadGraph`, as a
function of the final node map: the serialized connection restores to
a link between the resolved ports, or to nothing when an endpoint's
node id or port index does not resolve. -/
def restoredLink (m : List (Int × GraphNode)) (c : SerializedConnection) : Option GraphLink :=
  match mapGetNode m c.fromEp.nodeId, mapGetNode m c.toEp.nodeId with
  | some fn, some tn =>
    match endpointPort fn c.fromEp.portType c.fromEp.portIndex,
        endpointPort tn c.toEp.portType c.toEp.portIndex with
    | some fp, some tp =>
      some
        { id := c.id
          fromPort := { node := fn, index := c.fromEp.portIndex, type := c.fromEp.portType, port := fp }
          toPort := { node := tn, index := c.toEp.portIndex, type := c.toEp.portType, port := tp } }
    | _, _ => none
  | _, _ => none

/-! ### Concrete example graphs -/

/-- Exec input port with a two-line template. -/
def exExecIn : Port :=
  { type := "exec", name := some "", code := some "step(${nodeId});\n${next}" }

/-- Float input port named `x`. -/
def exFloatX : Port := { type := "float", name := some "x" }

/-- Exec output port named `next`. -/
def exExecNext : Port := { type := "exec", name := some "next" }

/-- Catalog definition of the `loop` node type. -/
def exDefLoop : NodeTypeDefinition :=
  { title := "Loop", category := "flow",
    inputs := some [exExecIn, exFloatX], outputs := some [exExecNext] }

/-- Catalog category holding `loop`. -/
def exCatFlow : CategoryDefinition :=
  { color := "#ff0000", nodes := some [("loop", exDefLoop)] }

/-- An instantiated `loop` node. -/
def exLoopNode : GraphNode :=
  { id := 0, title := "Loop", category := "flow", type := "loop",
    inputs := some [exExecIn, exFloatX], outputs := some [exExecNext],
    execOutPortCount := 1 }

/-- A direct self-cycle: the node's exec output links back to a port
of the same node (its non-exec input, so the node stays an entry). -/
def exLoopLink : GraphLink :=
  { id := 0,
    fromPort := { node := exLoopNode, index := 0, type := PortDir.output, port := exExecNext },
    toPort := { node := exLoopNode, index := 1, type := PortDir.input, port := exFloatX } }

/-- Graph with a single entry node whose exec output targets itself. -/
def exLoopSt : EditorStore :=
  { registryLoaded := true, nodeCategories := [("flow", exCatFlow)],
    nodes := [exLoopNode], links := [exLoopLink],
    nodeIdCounter := 1, linkIdCounter := 1 }

/-- Float input port named `src`. -/
def exValIn : Port := { type := "float", name := some "src" }

/-- Float output port named `out` whose template consumes `${src}`. -/
def exValOut : Port := { type := "float", name := some "out", code := some "${src}" }

/-- Catalog definition of a pure value node. -/
def exDefVal : NodeTypeDefinition :=
  { title := "Val", category := "vals",
    inputs := some [exValIn], outputs := some [exValOut] }

/-- Catalog category holding `val`. -/
def exCatVals : CategoryDefinition :=
  { color := "#00ff00", nodes := some [("val", exDefVal)] }

/-- First value node of the cyclic data pair. -/
def exValA : GraphNode :=
  { id := 10, title := "Val", category := "vals", type := "val",
    inputs := some [exValIn], outputs := some [exValOut] }

/-- Second value node of the cyclic data pair. -/
def exValB : GraphNode :=
  { id := 11, title := "Val", category := "vals", type := "val",
    inputs := some [exValIn], outputs := some [exValOut] }

/-- Data link feeding `exValA`'s input from `exValB`'s output. -/
def exLinkBA : GraphLink :=
  { id := 1,
    fromPort := { node := exValB, index := 0, type := PortDir.output, port := exValOut },
    toPort := { node := exValA, index := 0, type := PortDir.input, port := exValIn } }

/-- Data link feeding `exValB`'s input from `exValA`'s output. -/
def exLinkAB : GraphLink :=
  { id := 2,
    fromPort := { node := exValA, index := 0, type := PortDir.output, port := exValOut },
    toPort := { node := exValB, index := 0, type := PortDir.input, port := exValIn } }

/-- Two value-only nodes feeding each other: a cyclic data dependency. -/
def exDivSt : EditorStore :=
  { registryLoaded := true, nodeCategories := [("vals", exCatVals)],
    nodes := [exValA, exValB], links := [exLinkBA, exLinkAB],
    nodeIdCounter := 12, linkIdCounter := 3 }

/-- Exec input port with a one-line terminal template. -/
def exDoneIn : Port := { type := "exec", name := some "", code := some "done();" }

/-- Catalog definition of the terminal node type. -/
def exDefDone : NodeTypeDefinition :=
  { title := "Done", category := "flow", inputs := some [exDoneIn] }

/-- Catalog category holding `end`. -/
def exCatDone : CategoryDefinition :=
  { color := "#0000ff", nodes := some [("end", exDefDone)] }

/-- An instantiated terminal node. -/
def exDoneNode : GraphNode :=
  { id := 20, title := "Done", category := "flow", type := "end",
    inputs := some [exDoneIn] }

/-- A linkless graph with a single entry node: its data-dependency
relation is empty, hence trivially well-founded. -/
def exDoneSt : EditorStore :=
  { registryLoaded := true, nodeCategories := [("flow", exCatDone)],
    nodes := [exDoneNode], links := [], nodeIdCounter := 21, linkIdCounter := 0 }

/-- Float input port named `a`. -/
def exFIn : Port := { type := "float", name := some "a" }

/-- Float output port named `b`. -/
def exFOut : Port := { type := "float", name := some "b" }

/-- A node with one float input and one float output. -/
def exSelfNode : GraphNode :=
  { id := 30, title := "S", category := "c", type := "t",
    inputs := some [exFIn], outputs := some [exFOut] }

/-- A self-loop link between two compatible ports of the same node. -/
def exSelfLink : GraphLink :=
  { id := 3,
    fromPort := { node := exSelfNode, index := 0, type := PortDir.output, port := exFOut },
    toPort := { node := exSelfNode, index := 0, type := PortDir.input, port := exFIn } }

/-- Graph state, produced by direct collection mutation, consisting of
one node and a type-compatible self-loop link on it. -/
def exC6St : EditorStore :=
  { registryLoaded := false, nodeCategories := [],
    nodes := [exSelfNode], links := [exSelfLink],
    nodeIdCounter := 31, linkIdCounter := 4 }

/-- Exec input whose template forms a new placeholder once the inner
one is stripped: `$${a}{b}`. -/
def exBadIn7 : Port := { type := "exec", name := some "", code := some "$${a}{b}" }

/-- Catalog definition for the stripping counterexample. -/
def exDef7 : NodeTypeDefinition :=
  { title := "Bad", category := "flow", inputs := some [exBadIn7] }

/-- Catalog category holding `bad7`. -/
def exCat7 : CategoryDefinition :=
  { color := "#222222", nodes := some [("bad7", exDef7)] }

/-- An instantiated `bad7` node. -/
def exNode7 : GraphNode :=
  { id := 7, title := "Bad", category := "flow", type := "bad7",
    inputs := some [exBadIn7] }

/-- Graph for the stripping counterexample. -/
def exC7St : EditorStore :=
  { registryLoaded := true, nodeCategories := [("flow", exCat7)],
    nodes := [exNode7], links := [], nodeIdCounter := 8, linkIdCounter := 0 }

/-- Exec input whose template carries two ordinary unresolved
placeholders, one newline-led and one inline. -/
def exGoodIn8 : Port :=
  { type := "exec", name := some "", code := some "print(${missing});\n${next}" }

/-- Catalog definition for the ordinary stripping demonstration. -/
def exDef8 : NodeTypeDefinition :=
  { title := "P", category := "flow", inputs := some [exGoodIn8] }

/-- Catalog category holding `p8`. -/
def exCat8 : CategoryDefinition :=
  { color := "#333333", nodes := some [("p8", exDef8)] }

/-- An instantiated `p8` node. -/
def exNode8 : GraphNode :=
  { id := 8, title := "P", category := "flow", type := "p8",
    inputs := some [exGoodIn8] }

/-- Graph for the ordinary stripping demonstration. -/
def exC7bSt : EditorStore :=
  { registryLoaded := true, nodeCategories := [("flow", exCat8)],
    nodes := [exNode8], links := [], nodeIdCounter := 9, linkIdCounter := 0 }

/-- Output declared first: named `x`, of kind `float`. -/
def exOutX : Port := { type := "float", name := some "x", code := some "FIRST" }

/-- Output declared second: named `y`, of kind `int`. -/
def exOutY : Port := { type := "int", name := some "y", code := some "SECOND" }

/-- Catalog definition with two outputs distinguishing name-match from
kind-match. -/
def exDefMix : NodeTypeDefinition :=
  { title := "Mix", category := "m", outputs := some [exOutX, exOutY] }

/-- Catalog category holding `mix`. -/
def exCatMix : CategoryDefinition :=
  { color := "#444444", nodes := some [("mix", exDefMix)] }

/-- An instantiated `mix` node. -/
def exMixNode : GraphNode :=
  { id := 40, title := "Mix", category := "m", type := "mix",
    outputs := some [exOutX, exOutY] }

/-- Graph for the output-selection counterexample. -/
def exC8St : EditorStore :=
  { registryLoaded := true, nodeCategories := [("m", exCatMix)],
    nodes := [exMixNode], links := [], nodeIdCounter := 41, linkIdCounter := 0 }

/-- Requested port whose *name* matches the second output while its
*kind* matches the first. -/
def exP8 : Port := { type := "float", name := some "y" }

/-- A serialized connection whose endpoints resolve against the
restored `loop` node (output 0 is the exec port, input 1 the float
port), yet whose restored link is type-incompatible. -/
def exConn4 : SerializedConnection :=
  { id := 4,
    fromEp := { nodeId := 5, portIndex := 0, portType := PortDir.output },
    toEp := { nodeId := 5, portIndex := 1, portType := PortDir.input } }

/-- A serialized document: one restorable node, one node of unknown
type, one connection with resolving endpoints, one connection to a
missing node id, one connection to an out-of-range port index. -/
def exGDoc : GraphData :=
  { nodes :=
      [ { id := 5, type := "loop", category := "flow" },
        { id := 9, type := "mystery", category := "flow" } ],
    connections :=
      [ exConn4,
        { id := 6,
          fromEp := { nodeId := 9, portIndex := 0, portType := PortDir.output },
          toEp := { nodeId := 5, portIndex := 0, portType := PortDir.input } },
        { id := 7,
          fromEp := { nodeId := 5, portIndex := 5, portType := PortDir.output },
          toEp := { nodeId := 5, portIndex := 1, portType := PortDir.input } } ] }

/-- A store holding only the `flow` registry. -/
def exRegSt : EditorStore :=
  { registryLoaded := true, nodeCategories := [("flow", exCatFlow)] }

/-- The same registry with unrelated prior document content. -/
def exJunkSt : EditorStore :=
  { registryLoaded := true, nodeCategories := [("flow", exCatFlow)],
    nodes := [exSelfNode], links := [exSelfLink],
    nodeIdCounter := 77, linkIdCounter := 88 }

/-! ### Helper lemmas -/

/-- Stripping the plain placeholder pattern from the empty string. -/
theorem stripPh_nil (fuel : Nat) : stripPh fuel [] = [] := by
  cases fuel <;> rfl

/-- `takeWhile` passes over a block whose characters all satisfy the
predicate. -/
theorem takeWhile_append_all {p : Char → Bool} {xs : List Char} (ys : List Char)
    (h : ∀ c ∈ xs, p c = true) :
    (xs ++ ys).takeWhile p = xs ++ ys.takeWhile p := by
  induction xs with
  | nil => simp
  | cons c cs ih =>
    have hc : p c = true := h c (by simp)
    simp only [List.cons_append, List.takeWhile_cons, hc, if_true]
    rw [ih (fun c2 hc2 => h c2 (by simp [hc2]))]

/-- `matchPh` consumes exactly one well-formed placeholder. -/
theorem matchPh_placeholder (name : String) (hne : name ≠ "")
    (hnb : ∀ c ∈ name.data, c ≠ '\x7d') (rest : List Char) :
    matchPh ('$' :: '\x7b' :: (name.data ++ '\x7d' :: rest)) = some rest := by
  have hdata : name.data ≠ [] := by
    intro h
    apply hne
    cases name
    simp_all
  have htw : (name.data ++ '\x7d' :: rest).takeWhile (fun c => c != '\x7d') = name.data := by
    rw [takeWhile_append_all _ (fun c hc => by simp [hnb c hc])]
    simp [List.takeWhile_cons]
  have hdr : (name.data ++ '\x7d' :: rest).drop name.data.length = '\x7d' :: rest :=
    List.drop_left _ _
  simp only [matchPh, htw, hdr]
  simp [List.isEmpty_iff, hdata]

/-! ### C1 -/

/-- C1: `canConnectTypes` realizes the spec's decision table exactly:
it agrees with the table read top to bottom, it is reflexive on every
non-exec kind, and `exec` is never compatible with a non-exec kind in
either direction. -/
theorem canConnectTypes_decision_table :
    (∀ f t, canConnectTypes f t = typesCompatibleSpec f t) ∧
    (∀ k, k ≠ "exec" → canConnectTypes k k = true) ∧
    (∀ k, k ≠ "exec" → canConnectTypes "exec" k = false ∧ canConnectTypes k "exec" = false) := by
  refine ⟨?_, ?_, ?_⟩
  · intro f t
    by_cases hf : f = "exec" <;> by_cases ht : t = "exec" <;>
      by_cases hft : f = t <;> by_cases hd : t = "data" <;>
      simp_all [canConnectTypes, typesCompatibleSpec]
  · intro k hk
    simp [canConnectTypes, hk]
  · intro k hk
    constructor <;> simp [canConnectTypes, hk]

/-- Witness for C1 at concrete kinds. -/
theorem canConnectTypes_decision_table_witness :
    canConnectTypes "float" "float" = true ∧
    canConnectTypes "exec" "float" = false ∧ canConnectTypes "float" "exec" = false := by
  refine ⟨canConnectTypes_decision_table.2.1 "float" (by decide), ?_, ?_⟩
  · exact (canConnectTypes_decision_table.2.2 "float" (by decide)).1
  · exact (canConnectTypes_decision_table.2.2 "float" (by decide)).2

/-! ### C6 -/

/-- C6 counterexample: on a state holding a single type-compatible
self-loop link (float output to float input of the same node,
obtainable by direct collection mutation), the repair pass removes
nothing and the self-loop link survives, so invariant 1 does not hold
after `validateConnections`. -/
theorem validateConnections_keeps_self_loop :
    (validateConnections exC6St).1 = [] ∧
    (validateConnections exC6St).2 = exC6St ∧
    exSelfLink ∈ (validateConnections exC6St).2.links ∧
    exSelfLink.fromPort.node = exSelfLink.toPort.node := by
  refine ⟨by decide, by decide, by decide, by decide⟩

/-- C6 amended: `validateConnections` does not remove self-loop links;
invariant 1 is enforced only at link-creation time, where `canConnect`
rejects any pair of ports on the same node. -/
theorem canConnect_rejects_same_node :
    ∀ (st : EditorStore) (a b : PortInfo), a.node = b.node → canConnect st a b = false := by
  intro st a b h
  simp [canConnect, h]

/-- Witness for the amended C6 at the self-loop ports. -/
theorem canConnect_rejects_same_node_witness :
    canConnect exC6St
      { node := exSelfNode, index := 0, type := PortDir.output, port := exFOut }
      { node := exSelfNode, index := 0, type := PortDir.input, port := exFIn } = false :=
  canConnect_rejects_same_node exC6St _ _ rfl

/-! ### C7 -/

/-- C7 counterexample: the final stripping pass is a single
left-to-right scan, so removing `${a}` from the template `$${a}{b}`
concatenates the remaining text into the fresh placeholder `${b}`,
which does appear in the node's generated output. -/
theorem generateNodeCode_output_placeholder :
    generateNodeCode exC7St 1 exNode7 [] = some ("$\x7bb\x7d", [7]) ∧
    hasPlaceholder ("$\x7bb\x7d".data) = true := by
  refine ⟨by decide, by decide⟩

/-- C7 amended: the stripping pass removes, in one left-to-right scan,
every `${name}` match present in the compiled template (together with
a leading newline and indentation when present), but text concatenated
around a removal may itself form a `${...}` substring that stays in
the output.  A string that is exactly one well-formed placeholder
strips to nothing, and a node whose template holds ordinary unresolved
placeholders compiles with both strip rules applied. -/
theorem strip_removes_matched_placeholders :
    (∀ name : String, name ≠ "" → (∀ c ∈ name.data, c ≠ '\x7d') →
      stripPhC ("$\x7b" ++ name ++ "\x7d").data = []) ∧
    generateNodeCode exC7bSt 1 exNode8 [] = some ("print();", [8]) := by
  constructor
  · intro name hne hnb
    have hdata : ("$\x7b" ++ name ++ "\x7d").data = '$' :: '\x7b' :: (name.data ++ '\x7d' :: []) := by
      simp [String.data_append]
    rw [stripPhC, hdata]
    rw [show ('$' :: '\x7b' :: (name.data ++ '\x7d' :: [])).length = (name.data.length + 2) + 1 by
      simp [List.length_append]]
    rw [stripPh]
    rw [matchPh_placeholder name hne hnb []]
    exact stripPh_nil _
  · decide

/-- Witness for the amended C7 at a concrete placeholder name. -/
theorem strip_removes_matched_placeholders_witness :
    stripPhC ("$\x7b" ++ "q" ++ "\x7d").data = [] ∧
    generateNodeCode exC7bSt 1 exNode8 [] = some ("print();", [8]) :=
  ⟨strip_removes_matched_placeholders.1 "q" (by decide) (by decide),
   strip_removes_matched_placeholders.2⟩

/-! ### C8 -/

/-- C8 counterexample: the code selects the first output matching by
name *or* kind in declaration order — requesting the port named `y` of
kind `float` picks the earlier kind-matching output `x` (template
`FIRST`), while the spec's name-first selection would pick `y`
(template `SECOND`). -/
theorem output_selection_not_name_first :
    getNodeOutputCode exC8St 1 exMixNode exP8 = some "FIRST" ∧
    outDefCode exDefMix exP8 = some "FIRST" ∧
    outDefCodeNameFirst exDefMix exP8 = some "SECOND" ∧
    getNodeOutputCode exC8St 1 exMixNode exP8 ≠ outDefCodeNameFirst exDefMix exP8 := by
  refine ⟨by decide, by decide, by decide, by decide⟩

/-- C8 amended: the output definition is the *first* catalog output
whose name matches the requested port's name or whose kind matches its
kind (one disjunctive predicate in declaration order, not name-first
with a kind fallback); when the selected definition carries no
template string the resolution returns the empty string. -/
theorem output_selection_disjunctive_first :
    (∀ (d : NodeTypeDefinition) (port o1 : Port) (rest : List Port),
      d.outputs = some (o1 :: rest) → (o1.name = port.name ∨ o1.type = port.type) →
      outDefCode d port = o1.code) ∧
    (∀ (st : EditorStore) (fuel : Nat) (node : GraphNode) (port : Port)
      (d : NodeTypeDefinition),
      findNodeType st node.type = some d → outDefCode d port = none →
      getNodeOutputCode st (fuel + 1) node port = some "") := by
  constructor
  · intro d port o1 rest hout hmatch
    have hp : (decide (o1.name = port.name) || decide (o1.type = port.type)) = true := by
      rcases hmatch with h | h <;> simp [h]
    simp [outDefCode, hout, List.find?, hp]
  · intro st fuel node port d hf ho
    simp [getNodeOutputCode, hf, ho]

/-- Witness for the amended C8: the disjunctive first match at the
`mix` definition, and the empty result for the codeless `next` output
of the `loop` node. -/
theorem output_selection_disjunctive_first_witness :
    outDefCode exDefMix exP8 = exOutX.code ∧
    getNodeOutputCode exLoopSt 1 exLoopNode exExecNext = some "" := by
  constructor
  · exact output_selection_disjunctive_first.1 exDefMix exP8 exOutX [exOutY] rfl (Or.inr rfl)
  · exact output_selection_disjunctive_first.2 exLoopSt 0 exLoopNode exExecNext exDefLoop rfl rfl

/-- The exec-splice loop only ever extends the visited set, provided
the recursive compiler does. -/
theorem spliceExecWith_grows (f : GraphNode → List Int → Option (String × List Int))
    (hf : ∀ n pr s pr2, f n pr = some (s, pr2) → pr ⊆ pr2) :
    ∀ (ls : List GraphLink) (code : List Char) (pr : List Int) (code2 : List Char)
      (pr2 : List Int), spliceExecWith f ls code pr = some (code2, pr2) → pr ⊆ pr2 := by
  intro ls
  induction ls with
  | nil =>
    intro code pr code2 pr2 h
    simp only [spliceExecWith, Option.some.injEq, Prod.mk.injEq] at h
    exact h.2 ▸ List.Subset.refl pr
  | cons l ls ih =>
    intro code pr code2 pr2 h
    cases hc : f l.toPort.node pr with
    | none => simp only [spliceExecWith, hc] at h; exact Option.noConfusion h
    | some p =>
      obtain ⟨s, pr1⟩ := p
      simp only [spliceExecWith, hc] at h
      exact (hf _ _ _ _ hc).trans (ih _ _ _ _ h)

/-- `generateNodeCode` only ever extends the visited set. -/
theorem generateNodeCode_grows (st : EditorStore) :
    ∀ (fuel : Nat) (node : GraphNode) (pr : List Int) (s : String) (pr2 : List Int),
      generateNodeCode st fuel node pr = some (s, pr2) → pr ⊆ pr2 := by
  intro fuel
  induction fuel with
  | zero => intro node pr s pr2 h; simp [generateNodeCode] at h
  | succ n ih =>
    intro node pr s pr2 h
    by_cases hmem : node.id ∈ pr
    · simp only [generateNodeCode, if_pos hmem, Option.some.injEq, Prod.mk.injEq] at h
      exact h.2 ▸ List.Subset.refl pr
    · simp only [generateNodeCode, if_neg hmem] at h
      cases hft : findNodeType st node.type with
      | none =>
        simp only [hft, Option.some.injEq, Prod.mk.injEq] at h
        exact h.2 ▸ List.subset_cons_of_subset _ (List.Subset.refl _)
      | some d =>
        cases hec : execInCode d with
        | none =>
          simp only [hft, hec, Option.some.injEq, Prod.mk.injEq] at h
          exact h.2 ▸ List.subset_cons_of_subset _ (List.Subset.refl _)
        | some tmpl =>
          simp only [hft, hec] at h
          cases hrd : resolveDataWith (fun n2 p2 => getNodeOutputCode st n n2 p2)
              (dataLinks st node) (valueSubst node tmpl.data) with
          | none => simp only [hrd] at h; exact Option.noConfusion h
          | some code =>
            simp only [hrd] at h
            cases hsp : spliceExecWith (fun n2 pr2 => generateNodeCode st n n2 pr2)
                (execLinks st node) code (node.id :: pr) with
            | none => simp only [hsp] at h; exact Option.noConfusion h
            | some p =>
              obtain ⟨code2, pr3⟩ := p
              simp only [hsp, Option.some.injEq, Prod.mk.injEq] at h
              have hsub := spliceExecWith_grows _ (fun a b c d2 hx => ih a b c d2 hx) _ _ _ _ _ hsp
              exact (List.subset_cons_of_subset _ (List.Subset.refl _)).trans (h.2 ▸ hsub)

/-! ### C3 -/

/-- C3: the visited-set guard of `generateNodeCode`: a node already in
the visited set compiles to the empty string at once with the set
unchanged; otherwise the node's id is in the set from entry on (hence
in the returned set); and on the concrete direct-cycle graph — an
entry node whose exec output links back to the node itself — the
node's template is expanded exactly once, the second visit filling the
`${next}` placeholder with the empty string. -/
theorem generateNodeCode_visited_guard :
    (∀ (st : EditorStore) (fuel : Nat) (node : GraphNode) (pr : List Int),
      node.id ∈ pr → generateNodeCode st (fuel + 1) node pr = some ("", pr)) ∧
    (∀ (st : EditorStore) (fuel : Nat) (node : GraphNode) (pr : List Int) (s : String)
      (pr2 : List Int),
      node.id ∉ pr → generateNodeCode st fuel node pr = some (s, pr2) → node.id ∈ pr2) ∧
    generate exLoopSt "T" 3 = some (Except.ok (header "T" ++ "step(0);")) := by
  refine ⟨?_, ?_, rfl⟩
  · intro st fuel node pr h
    simp [generateNodeCode, h]
  · intro st fuel node pr s pr2 hmem h
    cases fuel with
    | zero => simp [generateNodeCode] at h
    | succ n =>
      simp only [generateNodeCode, if_neg hmem] at h
      cases hft : findNodeType st node.type with
      | none =>
        simp only [hft, Option.some.injEq, Prod.mk.injEq] at h
        exact h.2 ▸ List.mem_cons_self _ _
      | some d =>
        cases hec : execInCode d with
        | none =>
          simp only [hft, hec, Option.some.injEq, Prod.mk.injEq] at h
          exact h.2 ▸ List.mem_cons_self _ _
        | some tmpl =>
          simp only [hft, hec] at h
          cases hrd : resolveDataWith (fun n2 p2 => getNodeOutputCode st n n2 p2)
              (dataLinks st node) (valueSubst node tmpl.data) with
          | none => simp only [hrd] at h; exact Option.noConfusion h
          | some code =>
            simp only [hrd] at h
            cases hsp : spliceExecWith (fun n2 pr2 => generateNodeCode st n n2 pr2)
                (execLinks st node) code (node.id :: pr) with
            | none => simp only [hsp] at h; exact Option.noConfusion h
            | some p =>
              obtain ⟨code2, pr3⟩ := p
              simp only [hsp, Option.some.injEq, Prod.mk.injEq] at h
              have hsub := spliceExecWith_grows _
                (fun a b c d2 hx => generateNodeCode_grows st n a b c d2 hx) _ _ _ _ _ hsp
              exact h.2 ▸ hsub (List.mem_cons_self _ _)

/-- Witness for C3: the guard at a visited node, and the guarded
cycle compilation. -/
theorem generateNodeCode_visited_guard_witness :
    generateNodeCode exLoopSt 1 exLoopNode [0] = some ("", [0]) ∧
    generate exLoopSt "T" 3 = some (Except.ok (header "T" ++ "step(0);")) :=
  ⟨generateNodeCode_visited_guard.1 exLoopSt 0 exLoopNode [0] (by decide),
   generateNodeCode_visited_guard.2.2⟩

/-! ### C2 -/

/-- C2: `generate` fails with the no-entry-point error, before
producing any output, exactly when the graph has no entry node; with
at least one entry node it never fails (its only other outcomes being
a returned string, or — `none` in this fuel embedding — divergence);
and a node is an entry node precisely when its catalog-defined input
ports include an exec port and no link arrives at the node on an
exec-kind port. -/
theorem generate_no_entry_point :
    ∀ (st : EditorStore) (now : String) (fuel : Nat),
      ((∃ e, generate st now fuel = some (Except.error e)) ↔
        ¬ ∃ n ∈ st.nodes, isEntry st n = true) ∧
      ((¬ ∃ n ∈ st.nodes, isEntry st n = true) →
        generate st now fuel =
          some (Except.error "No entry point nodes (exec input without incoming exec).")) ∧
      ((∃ n ∈ st.nodes, isEntry st n = true) →
        ∀ r, generate st now fuel = some r → ∃ s, r = Except.ok s) ∧
      (∀ n, isEntry st n = true ↔
        ((∃ d ins, findNodeType st n.type = some d ∧ d.inputs = some ins ∧
            ∃ p ∈ ins, p.type = "exec") ∧
          ¬ ∃ l ∈ st.links, l.toPort.node = n ∧ l.toPort.port.type = "exec")) := by
  intro st now fuel
  have hiff : (entryNodes st).isEmpty = true ↔ ¬ ∃ n ∈ st.nodes, isEntry st n = true := by
    simp [entryNodes, List.isEmpty_iff, List.filter_eq_nil_iff]
  refine ⟨?_, ?_, ?_, ?_⟩
  · constructor
    · rintro ⟨e, he⟩
      rw [← hiff]
      by_contra hne
      rw [generate, if_neg (by simp_all)] at he
      cases hg : genEntries (fun n pr => generateNodeCode st fuel n pr) (entryNodes st) [] with
      | none => simp only [hg] at he; exact Option.noConfusion he
      | some p => obtain ⟨ss, pr⟩ := p; simp only [hg] at he; simp at he
    · intro h
      exact ⟨_, by rw [generate, if_pos (hiff.2 h)]⟩
  · intro h
    rw [generate, if_pos (hiff.2 h)]
  · intro h r hr
    have hne : ¬ (entryNodes st).isEmpty = true := fun hc => (hiff.1 hc) h
    rw [generate, if_neg hne] at hr
    cases hg : genEntries (fun n pr => generateNodeCode st fuel n pr) (entryNodes st) [] with
    | none => simp only [hg] at hr; exact Option.noConfusion hr
    | some p =>
      obtain ⟨ss, pr⟩ := p
      simp only [hg, Option.some.injEq] at hr
      exact ⟨_, hr.symm⟩
  · intro n
    rw [isEntry]
    cases hft : findNodeType st n.type with
    | none => simp [hft]
    | some d =>
      cases hins : d.inputs with
      | none => simp [hins]
      | some ins => simp [hins, List.any_eq_true]

/-- Witness for C2: the error on an entry-less graph, obtained from
the theorem with its hypothesis discharged concretely. -/
theorem generate_no_entry_point_witness :
    generate exC6St "T" 5 =
      some (Except.error "No entry point nodes (exec input without incoming exec).") :=
  (generate_no_entry_point exC6St "T" 5).2.1 (by decide)

/-! ### Association-map lemmas for the validator -/

/-- A successful lookup names an entry of the map. -/
theorem lookupAssoc_mem {α : Type} {m : List (String × α)} {k : String} {v : α}
    (h : lookupAssoc m k = some v) : (k, v) ∈ m := by
  induction m with
  | nil => simp [lookupAssoc] at h
  | cons p rest ih =>
    obtain ⟨k', v'⟩ := p
    by_cases hk : k' = k
    · subst hk
      have h2 : v' = v := by simpa [lookupAssoc] using h
      exact h2 ▸ List.mem_cons_self _ _
    · simp only [lookupAssoc, if_neg hk] at h
      exact List.mem_cons_of_mem _ (ih h)

/-- Lookup misses keys absent from the map. -/
theorem lookupAssoc_eq_none {α : Type} {m : List (String × α)} {k : String}
    (h : k ∉ m.map Prod.fst) : lookupAssoc m k = none := by
  induction m with
  | nil => rfl
  | cons p rest ih =>
    obtain ⟨k', v'⟩ := p
    simp only [List.map_cons, List.mem_cons] at h
    push_neg at h
    simp only [lookupAssoc, if_neg (fun hc : k' = k => h.1 hc.symm)]
    exact ih h.2

/-- `mapAdd` with a fresh key appends a singleton group. -/
theorem mapAdd_not_mem_keys (m : List (String × List GraphLink)) (k0 : String) (l : GraphLink)
    (h : k0 ∉ m.map Prod.fst) : mapAdd m k0 l = m ++ [(k0, [l])] := by
  induction m with
  | nil => rfl
  | cons p rest ih =>
    obtain ⟨k', ls⟩ := p
    simp only [List.map_cons, List.mem_cons] at h
    push_neg at h
    simp only [mapAdd, if_neg (fun hc : k' = k0 => h.1 hc.symm)]
    rw [ih h.2]
    rfl

/-- `mapAdd` with an existing key keeps the key list. -/
theorem mapAdd_keys_of_mem (m : List (String × List GraphLink)) (k0 : String) (l : GraphLink)
    (h : k0 ∈ m.map Prod.fst) : (mapAdd m k0 l).map Prod.fst = m.map Prod.fst := by
  induction m with
  | nil => simp at h
  | cons p rest ih =>
    obtain ⟨k', ls⟩ := p
    by_cases hk : k' = k0
    · simp [mapAdd, hk]
    · simp only [List.map_cons, List.mem_cons] at h
      have h2 : k0 ∈ rest.map Prod.fst := h.resolve_left (fun hc => hk hc.symm)
      simp [mapAdd, hk, ih h2]

/-- Lookup after `mapAdd`: the group under the touched key grows by
the link, all other groups are unchanged. -/
theorem mapAdd_lookup (m : List (String × List GraphLink)) (k0 : String) (l : GraphLink)
    (k : String) :
    lookupAssoc (mapAdd m k0 l) k =
      if k = k0 then some ((lookupAssoc m k0).getD [] ++ [l]) else lookupAssoc m k := by
  induction m with
  | nil =>
    by_cases hk : k = k0
    · subst hk; simp [mapAdd, lookupAssoc]
    · simp [mapAdd, lookupAssoc, hk, Ne.symm hk]
  | cons p rest ih =>
    obtain ⟨k', ls⟩ := p
    by_cases hk' : k' = k0
    · subst hk'
      by_cases hk : k = k'
      · subst hk; simp [mapAdd, lookupAssoc]
      · simp [mapAdd, lookupAssoc, hk, Ne.symm hk]
    · simp only [mapAdd, if_neg hk']
      by_cases hk : k' = k
      · subst hk
        simp [lookupAssoc, hk']
      · simp only [lookupAssoc, if_neg hk]
        rw [ih]
        by_cases hk2 : k = k0
        · simp [hk2, hk']
        · simp [hk2, if_neg hk]

/-- Entries after `mapAdd` on an existing key of a key-unique map:
either the touched entry with the link appended, or an untouched entry
under a different key. -/
theorem mapAdd_entries_of_mem (m : List (String × List GraphLink)) (k0 : String) (l : GraphLink)
    (hnd : (m.map Prod.fst).Nodup) (hmem : k0 ∈ m.map Prod.fst) :
    ∀ p ∈ mapAdd m k0 l,
      (p.1 = k0 ∧ ∃ ls0, (k0, ls0) ∈ m ∧ p.2 = ls0 ++ [l]) ∨ (p ∈ m ∧ p.1 ≠ k0) := by
  induction m with
  | nil => simp at hmem
  | cons q rest ih =>
    obtain ⟨k', ls⟩ := q
    simp only [List.map_cons, List.nodup_cons] at hnd
    by_cases hk' : k' = k0
    · subst hk'
      intro p hp
      simp only [mapAdd, if_pos rfl] at hp
      rcases List.mem_cons.1 hp with rfl | hp2
      · exact Or.inl ⟨rfl, ls, List.mem_cons_self _ _, rfl⟩
      · refine Or.inr ⟨List.mem_cons_of_mem _ hp2, ?_⟩
        intro hc
        exact hnd.1 (hc ▸ List.mem_map_of_mem Prod.fst hp2)
    · intro p hp
      simp only [mapAdd, if_neg hk'] at hp
      rcases List.mem_cons.1 hp with rfl | hp2
      · exact Or.inr ⟨List.mem_cons_self _ _, fun hc => hk' hc⟩
      · have hmem2 : k0 ∈ rest.map Prod.fst := by
          rcases List.mem_cons.1 hmem with hc | hc
          · exact absurd hc.symm hk'
          · exact hc
        rcases ih hnd.2 hmem2 p hp2 with ⟨h1, ls0, hls0, h2⟩ | ⟨h1, h2⟩
        · exact Or.inl ⟨h1, ls0, List.mem_cons_of_mem _ hls0, h2⟩
        · exact Or.inr ⟨List.mem_cons_of_mem _ h1, h2⟩

/-- Lookup distributes over appended maps, first map first. -/
theorem lookupAssoc_append {α : Type} (m1 m2 : List (String × α)) (k : String) :
    lookupAssoc (m1 ++ m2) k =
      match lookupAssoc m1 k with
      | some v => some v
      | none => lookupAssoc m2 k := by
  induction m1 with
  | nil => rfl
  | cons p rest ih =>
    obtain ⟨k', v'⟩ := p
    by_cases hk : k' = k
    · simp [lookupAssoc, hk]
    · simp [lookupAssoc, hk, ih]

/-- Lookup hits keys present in the map. -/
theorem lookupAssoc_isSome_of_mem {α : Type} {m : List (String × α)} {k : String}
    (h : k ∈ m.map Prod.fst) : (lookupAssoc m k).isSome = true := by
  induction m with
  | nil => simp at h
  | cons p rest ih =>
    obtain ⟨k', v'⟩ := p
    by_cases hk : k' = k
    · simp [lookupAssoc, hk]
    · simp only [List.map_cons, List.mem_cons] at h
      have h2 : k ∈ rest.map Prod.fst := h.resolve_left (fun hc => hk hc.symm)
      simp [lookupAssoc, hk, ih h2]

/-- `MapInv` is preserved by `mapAdd`, updating the group function at
the touched key. -/
theorem MapInv_mapAdd {m : List (String × List GraphLink)} {f : String → List GraphLink}
    (hm : MapInv m f) (k0 : String) (l : GraphLink) :
    MapInv (mapAdd m k0 l) (fun k => if k = k0 then f k0 ++ [l] else f k) := by
  obtain ⟨hlook, hent, hnd⟩ := hm
  by_cases hmem : k0 ∈ m.map Prod.fst
  · refine ⟨?_, ?_, ?_⟩
    · intro k
      rw [mapAdd_lookup]
      by_cases hk : k = k0
      · subst hk
        have hne : f k ≠ [] := by
          intro hc
          have h1 := lookupAssoc_isSome_of_mem hmem
          rw [hlook k, hc] at h1
          simp [optGroup] at h1
        simp [hlook k, optGroup, hne]
      · simp [hk, hlook k]
    · intro p hp
      rcases mapAdd_entries_of_mem m k0 l hnd hmem p hp with ⟨h1, ls0, hls0, h2⟩ | ⟨h1, h2⟩
      · have hls : ls0 = f k0 := hent _ hls0
        simp [h1, h2, hls]
      · simp [h2, hent _ h1]
    · rw [mapAdd_keys_of_mem m k0 l hmem]
      exact hnd
  · have hf0 : f k0 = [] := by
      have h1 := hlook k0
      rw [lookupAssoc_eq_none hmem] at h1
      by_contra hc
      simp [optGroup, hc] at h1
    rw [mapAdd_not_mem_keys m k0 l hmem]
    refine ⟨?_, ?_, ?_⟩
    · intro k
      rw [lookupAssoc_append]
      by_cases hk : k = k0
      · subst hk
        rw [lookupAssoc_eq_none hmem]
        simp [lookupAssoc, optGroup, hf0]
      · rw [hlook k]
        cases hg : optGroup (f k) with
        | none => simp [lookupAssoc, hk, Ne.symm hk, hg]
        | some v => simp [hg, hk]
    · intro p hp
      rcases List.mem_append.1 hp with hp1 | hp1
      · have hk : p.1 ≠ k0 := by
          intro hc
          exact hmem (hc ▸ List.mem_map_of_mem Prod.fst hp1)
        simp [hk, hent _ hp1]
      · simp only [List.mem_singleton] at hp1
        subst hp1
        simp [hf0]
    · simp only [List.map_append, List.map_cons, List.map_nil]
      rw [List.nodup_append]
      exact ⟨hnd, List.nodup_singleton _, by simpa using fun hc => hmem hc⟩

/-- `MapInv` transports along pointwise-equal group functions. -/
theorem MapInv_congr {m : List (String × List GraphLink)} {f g : String → List GraphLink}
    (hfg : ∀ k, f k = g k) (hm : MapInv m f) : MapInv m g := by
  obtain ⟨h1, h2, h3⟩ := hm
  exact ⟨fun k => (hfg k) ▸ h1 k, fun p hp => (hfg p.1) ▸ h2 p hp, h3⟩

/-- The empty map is coherent with the empty grouping. -/
theorem MapInv_nil : MapInv [] (fun _ => []) :=
  ⟨fun _ => rfl, by simp, by simp⟩

/-- Characterization of the first pass of `validateConnections`: the
invalid list collects exactly the links failing `linkValid`, and both
tracking maps stay coherent, their groups extended by the valid
tracked links of the processed segment. -/
theorem vcPass1_spec (st : EditorStore) :
    ∀ (ls : List GraphLink) (acc : VCAcc) (fE fD : String → List GraphLink),
      MapInv acc.execOut fE → MapInv acc.dataIn fD →
      (vcPass1 st ls acc).invalid = acc.invalid ++ ls.filter (fun l => !linkValid st l) ∧
      MapInv (vcPass1 st ls acc).execOut
        (fun k => fE k ++ grpFilter st execTrack execKey k ls) ∧
      MapInv (vcPass1 st ls acc).dataIn
        (fun k => fD k ++ grpFilter st dataTrack dataKey k ls) := by
  intro ls
  induction ls with
  | nil =>
    intro acc fE fD hE hD
    refine ⟨by simp [vcPass1], ?_, ?_⟩
    · exact MapInv_congr (fun k => by simp [grpFilter]) hE
    · exact MapInv_congr (fun k => by simp [grpFilter]) hD
  | cons l ls ih =>
    intro acc fE fD hE hD
    by_cases hv : linkValid st l = true
    · simp only [vcPass1, if_pos hv]
      have hfilter : (l :: ls).filter (fun x => !linkValid st x) =
          ls.filter (fun x => !linkValid st x) := by
        simp [List.filter_cons, hv]
      by_cases he : l.fromPort.port.type = "exec" <;>
        by_cases hd : l.toPort.port.type ≠ "exec"
      · simp only [if_pos he, if_pos hd]
        obtain ⟨h1, h2, h3⟩ :=
          ih { acc with execOut := mapAdd acc.execOut (execKey l) l,
                        dataIn := mapAdd acc.dataIn (dataKey l) l }
            _ _ (MapInv_mapAdd hE (execKey l) l) (MapInv_mapAdd hD (dataKey l) l)
        refine ⟨by simpa [hfilter] using h1, MapInv_congr ?_ h2, MapInv_congr ?_ h3⟩
        · intro k
          by_cases hk : k = execKey l
          · subst hk
            simp [grpFilter, List.filter_cons, hv, execTrack, he, List.append_assoc]
          · have hdk : decide (execKey l = k) = false := decide_eq_false (fun hc => hk hc.symm)
            simp [grpFilter, List.filter_cons, hk, hdk]
        · intro k
          by_cases hk : k = dataKey l
          · subst hk
            simp [grpFilter, List.filter_cons, hv, dataTrack, hd, List.append_assoc]
          · have hdk : decide (dataKey l = k) = false := decide_eq_false (fun hc => hk hc.symm)
            simp [grpFilter, List.filter_cons, hk, hdk]
      · simp only [if_pos he, if_neg hd]
        obtain ⟨h1, h2, h3⟩ :=
          ih { acc with execOut := mapAdd acc.execOut (execKey l) l }
            _ _ (MapInv_mapAdd hE (execKey l) l) hD
        refine ⟨by simpa [hfilter] using h1, MapInv_congr ?_ h2, MapInv_congr ?_ h3⟩
        · intro k
          by_cases hk : k = execKey l
          · subst hk
            simp [grpFilter, List.filter_cons, hv, execTrack, he, List.append_assoc]
          · have hdk : decide (execKey l = k) = false := decide_eq_false (fun hc => hk hc.symm)
            simp [grpFilter, List.filter_cons, hk, hdk]
        · intro k
          simp [grpFilter, List.filter_cons, dataTrack, hd]
      · simp only [if_neg he, if_pos hd]
        obtain ⟨h1, h2, h3⟩ :=
          ih { acc with dataIn := mapAdd acc.dataIn (dataKey l) l }
            _ _ hE (MapInv_mapAdd hD (dataKey l) l)
        refine ⟨by simpa [hfilter] using h1, MapInv_congr ?_ h2, MapInv_congr ?_ h3⟩
        · intro k
          simp [grpFilter, List.filter_cons, execTrack, he]
        · intro k
          by_cases hk : k = dataKey l
          · subst hk
            simp [grpFilter, List.filter_cons, hv, dataTrack, hd, List.append_assoc]
          · have hdk : decide (dataKey l = k) = false := decide_eq_false (fun hc => hk hc.symm)
            simp [grpFilter, List.filter_cons, hk, hdk]
      · simp only [if_neg he, if_neg hd]
        obtain ⟨h1, h2, h3⟩ := ih acc _ _ hE hD
        refine ⟨by simpa [hfilter] using h1, MapInv_congr ?_ h2, MapInv_congr ?_ h3⟩
        · intro k
          simp [grpFilter, List.filter_cons, execTrack, he]
        · intro k
          simp [grpFilter, List.filter_cons, dataTrack, hd]
    · simp only [vcPass1, if_neg hv]
      have hfilter : (l :: ls).filter (fun x => !linkValid st x) =
          l :: ls.filter (fun x => !linkValid st x) := by
        simp [List.filter_cons, hv]
      obtain ⟨h1, h2, h3⟩ := ih { acc with invalid := acc.invalid ++ [l] } _ _ hE hD
      refine ⟨?_, MapInv_congr ?_ h2, MapInv_congr ?_ h3⟩
      · rw [h1, hfilter]
        simp
      · intro k
        simp [grpFilter, List.filter_cons, hv]
      · intro k
        simp [grpFilter, List.filter_cons, hv]

/-- Membership after the duplicate-append fold: the original marks
plus the processed elements. -/
theorem foldAddIfNew_mem :
    ∀ (xs inv : List GraphLink) (l : GraphLink),
      l ∈ xs.foldl (fun inv2 l2 => if l2 ∈ inv2 then inv2 else inv2 ++ [l2]) inv ↔
        l ∈ inv ∨ l ∈ xs := by
  intro xs
  induction xs with
  | nil => simp
  | cons x xs ih =>
    intro inv l
    simp only [List.foldl_cons]
    rw [ih]
    by_cases hx : x ∈ inv
    · simp only [if_pos hx, List.mem_cons]
      constructor
      · rintro (h | h)
        · exact Or.inl h
        · exact Or.inr (Or.inr h)
      · rintro (h | rfl | h)
        · exact Or.inl h
        · exact Or.inl hx
        · exact Or.inr h
    · simp only [if_neg hx, List.mem_append, List.mem_singleton, List.mem_cons]
      tauto

/-- Membership in the second pass of `validateConnections`: the first
pass's marks plus the tail of every tracked group. -/
theorem vcAddDups_mem :
    ∀ (groups : List (String × List GraphLink)) (inv : List GraphLink) (l : GraphLink),
      l ∈ vcAddDups groups inv ↔ l ∈ inv ∨ ∃ p ∈ groups, l ∈ p.2.drop 1 := by
  intro groups
  induction groups with
  | nil => simp [vcAddDups]
  | cons g gs ih =>
    intro inv l
    obtain ⟨k, ls⟩ := g
    simp only [vcAddDups]
    by_cases hlen : ls.length > 1
    · rw [if_pos hlen, ih, foldAddIfNew_mem]
      simp only [List.mem_cons]
      constructor
      · rintro ((h | h) | ⟨p, hp, h⟩)
        · exact Or.inl h
        · exact Or.inr ⟨(k, ls), Or.inl rfl, h⟩
        · exact Or.inr ⟨p, Or.inr hp, h⟩
      · rintro (h | ⟨p, rfl | hp, h⟩)
        · exact Or.inl (Or.inl h)
        · exact Or.inl (Or.inr h)
        · exact Or.inr ⟨p, hp, h⟩
    · rw [if_neg hlen, ih]
      have hdrop : ls.drop 1 = [] := List.drop_eq_nil_of_le (by omega)
      simp only [List.mem_cons]
      constructor
      · rintro (h | ⟨p, hp, h⟩)
        · exact Or.inl h
        · exact Or.inr ⟨p, Or.inr hp, h⟩
      · rintro (h | ⟨p, rfl | hp, h⟩)
        · exact Or.inl h
        · rw [hdrop] at h; cases h
        · exact Or.inr ⟨p, hp, h⟩

/-- The second pass adds nothing when every group is a singleton. -/
theorem vcAddDups_noop :
    ∀ (groups : List (String × List GraphLink)) (inv : List GraphLink),
      (∀ p ∈ groups, p.2.length ≤ 1) → vcAddDups groups inv = inv := by
  intro groups
  induction groups with
  | nil => intro inv _; rfl
  | cons g gs ih =>
    intro inv h
    obtain ⟨k, ls⟩ := g
    simp only [vcAddDups]
    rw [if_neg (by
      have := h (k, ls) (List.mem_cons_self _ _)
      simpa using Nat.not_lt.2 this)]
    exact ih _ (fun p hp => h p (List.mem_cons_of_mem _ hp))

/-- The repaired store keeps exactly the links not marked for
removal. -/
theorem validateConnections_snd_links (st : EditorStore) :
    (validateConnections st).2.links =
      st.links.filter (fun l => decide (l ∉ (validateConnections st).1)) := by
  rw [validateConnections]
  split
  · rfl
  · rename_i hlen
    have hnil : vcAddDups (vcPass1 st st.links {}).dataIn
        (vcAddDups (vcPass1 st st.links {}).execOut (vcPass1 st st.links {}).invalid) = [] :=
      List.length_eq_zero.1 (by omega)
    rw [hnil]
    exact (List.filter_eq_self.2 (by simp)).symm

/-- The repair pass never touches the node collection. -/
theorem validateConnections_snd_nodes (st : EditorStore) :
    (validateConnections st).2.nodes = st.nodes := by
  rw [validateConnections]
  split <;> rfl

/-- The repair pass never touches the id counters. -/
theorem validateConnections_snd_counters (st : EditorStore) :
    (validateConnections st).2.nodeIdCounter = st.nodeIdCounter ∧
    (validateConnections st).2.linkIdCounter = st.linkIdCounter := by
  rw [validateConnections]
  split <;> exact ⟨rfl, rfl⟩

/-- Per-link validity depends only on the node collection and the
ports. -/
theorem linkValid_congr {st1 st2 : EditorStore} (h : st1.nodes = st2.nodes) (l : GraphLink) :
    linkValid st1 l = linkValid st2 l := by
  simp [linkValid, h]

/-- The removal list of `validateConnections`, element-wise: a link
failing validity, or a non-first member of an exec-output or
data-input group. -/
theorem validateConnections_fst_mem (st : EditorStore) (l : GraphLink) :
    l ∈ (validateConnections st).1 ↔
      l ∈ st.links.filter (fun x => !linkValid st x) ∨
      (∃ p ∈ (vcPass1 st st.links {}).execOut, l ∈ p.2.drop 1) ∨
      (∃ p ∈ (vcPass1 st st.links {}).dataIn, l ∈ p.2.drop 1) := by
  have hfst : (validateConnections st).1 =
      vcAddDups (vcPass1 st st.links {}).dataIn
        (vcAddDups (vcPass1 st st.links {}).execOut (vcPass1 st st.links {}).invalid) := by
    rw [validateConnections]
    split <;> rfl
  rw [hfst, vcAddDups_mem, vcAddDups_mem]
  have hinv : (vcPass1 st st.links {}).invalid =
      st.links.filter (fun x => !linkValid st x) := by
    have := (vcPass1_spec st st.links {} (fun _ => []) (fun _ => []) MapInv_nil MapInv_nil).1
    simpa using this
  rw [hinv]
  rw [or_assoc]

/-! ### C5 -/

/-- C5: `validateConnections` is idempotent — on the state it returns,
a second call removes nothing and leaves the state unchanged. -/
theorem validateConnections_idempotent :
    ∀ st : EditorStore,
      validateConnections (validateConnections st).2 = ([], (validateConnections st).2) := by
  intro st
  obtain ⟨hP1inv, hPE, hPD⟩ :=
    vcPass1_spec st st.links {} (fun _ => []) (fun _ => []) MapInv_nil MapInv_nil
  have hPE' : MapInv (vcPass1 st st.links {}).execOut
      (fun k => grpFilter st execTrack execKey k st.links) :=
    MapInv_congr (fun k => by simp) hPE
  have hPD' : MapInv (vcPass1 st st.links {}).dataIn
      (fun k => grpFilter st dataTrack dataKey k st.links) :=
    MapInv_congr (fun k => by simp) hPD
  have hnodes : (validateConnections st).2.nodes = st.nodes := validateConnections_snd_nodes st
  have hlinks := validateConnections_snd_links st
  -- every surviving link is valid
  have hsurv : ∀ l ∈ (validateConnections st).2.links, linkValid st l = true := by
    intro l hl
    rw [hlinks] at hl
    have hmem := List.mem_filter.1 hl
    have hnotrem : l ∉ (validateConnections st).1 := by simpa using hmem.2
    by_contra hbad
    exact hnotrem ((validateConnections_fst_mem st l).2
      (Or.inl (List.mem_filter.2 ⟨hmem.1, by
        simp only [Bool.not_eq_true']
        exact Bool.eq_false_iff.2 hbad⟩)))
  -- surviving groups have at most one member
  have hgrp2 : ∀ (track : GraphLink → Bool) (key : GraphLink → String)
      (m1 : List (String × List GraphLink)),
      MapInv m1 (fun k => grpFilter st track key k st.links) →
      (∀ p ∈ m1, ∀ x ∈ p.2.drop 1, x ∈ (validateConnections st).1) →
      ∀ k, (grpFilter (validateConnections st).2 track key k
        (validateConnections st).2.links).length ≤ 1 := by
    intro track key m1 hm1 htails k
    have hcomm : grpFilter (validateConnections st).2 track key k (validateConnections st).2.links =
        (grpFilter st track key k st.links).filter
          (fun l => decide (l ∉ (validateConnections st).1)) := by
      simp only [grpFilter]
      rw [hlinks, List.filter_filter, List.filter_filter]
      refine List.filter_congr (fun x _ => ?_)
      rw [linkValid_congr hnodes]
      cases hb : decide (x ∉ (validateConnections st).1) <;>
        simp [Bool.and_comm, Bool.and_left_comm, Bool.and_assoc, hb]
    rw [hcomm]
    cases hg : grpFilter st track key k st.links with
    | nil => simp
    | cons l0 t =>
      have hmem1 : (k, l0 :: t) ∈ m1 :=
        lookupAssoc_mem (by rw [hm1.1 k]; simp [hg, optGroup])
      have htail : ∀ x ∈ t, x ∈ (validateConnections st).1 := by
        intro x hx
        exact htails _ hmem1 x (by simpa using hx)
      have htfilter : t.filter (fun l => decide (l ∉ (validateConnections st).1)) = [] :=
        List.filter_eq_nil_iff.2 (fun x hx => by simp [htail x hx])
      rw [List.filter_cons]
      by_cases h0 : l0 ∈ (validateConnections st).1
      · have hnil : List.filter (fun l => !decide (l ∈ (validateConnections st).1)) t = [] :=
          List.filter_eq_nil_iff.2 (fun a ha => by simp [htail a ha])
        simp [h0, hnil]
      · have hnil : List.filter (fun l => !decide (l ∈ (validateConnections st).1)) t = [] :=
          List.filter_eq_nil_iff.2 (fun a ha => by simp [htail a ha])
        simp [h0, hnil]
  have htailsE : ∀ p ∈ (vcPass1 st st.links {}).execOut,
      ∀ x ∈ p.2.drop 1, x ∈ (validateConnections st).1 := by
    intro p hp x hx
    exact (validateConnections_fst_mem st x).2 (Or.inr (Or.inl ⟨p, hp, hx⟩))
  have htailsD : ∀ p ∈ (vcPass1 st st.links {}).dataIn,
      ∀ x ∈ p.2.drop 1, x ∈ (validateConnections st).1 := by
    intro p hp x hx
    exact (validateConnections_fst_mem st x).2 (Or.inr (Or.inr ⟨p, hp, hx⟩))
  have hboundE := hgrp2 execTrack execKey _ hPE' htailsE
  have hboundD := hgrp2 dataTrack dataKey _ hPD' htailsD
  -- second run
  obtain ⟨hQ1inv, hQE, hQD⟩ :=
    vcPass1_spec (validateConnections st).2 (validateConnections st).2.links {}
      (fun _ => []) (fun _ => []) MapInv_nil MapInv_nil
  have hinv2 : (validateConnections st).2.links.filter
      (fun l => !linkValid (validateConnections st).2 l) = [] := by
    refine List.filter_eq_nil_iff.2 (fun l hl => ?_)
    rw [linkValid_congr hnodes, hsurv l hl]
    simp
  have hQinv0 : (vcPass1 (validateConnections st).2 (validateConnections st).2.links {}).invalid
      = [] := by
    rw [hQ1inv, hinv2]
    rfl
  have hQE2 : MapInv (vcPass1 (validateConnections st).2
      (validateConnections st).2.links {}).execOut
      (fun k => grpFilter (validateConnections st).2 execTrack execKey k
        (validateConnections st).2.links) :=
    MapInv_congr (fun k => by simp) hQE
  have hQD2 : MapInv (vcPass1 (validateConnections st).2
      (validateConnections st).2.links {}).dataIn
      (fun k => grpFilter (validateConnections st).2 dataTrack dataKey k
        (validateConnections st).2.links) :=
    MapInv_congr (fun k => by simp) hQD
  have hQE' : ∀ p ∈ (vcPass1 (validateConnections st).2
      (validateConnections st).2.links {}).execOut, p.2.length ≤ 1 := by
    intro p hp
    rw [hQE2.2.1 p hp]
    exact hboundE p.1
  have hQD' : ∀ p ∈ (vcPass1 (validateConnections st).2
      (validateConnections st).2.links {}).dataIn, p.2.length ≤ 1 := by
    intro p hp
    rw [hQD2.2.1 p hp]
    exact hboundD p.1
  have hall : vcAddDups (vcPass1 (validateConnections st).2
        (validateConnections st).2.links {}).dataIn
      (vcAddDups (vcPass1 (validateConnections st).2
        (validateConnections st).2.links {}).execOut
        (vcPass1 (validateConnections st).2 (validateConnections st).2.links {}).invalid) = [] := by
    rw [vcAddDups_noop _ _ hQE', vcAddDups_noop _ _ hQD', hQinv0]
  rw [validateConnections, hall]
  simp

/-! ### Loader lemmas -/

/-- The constructor always consumes exactly one node id. -/
theorem mkGraphNode_snd (category ty : String) (st : EditorStore) :
    (mkGraphNode category ty st).2 = { st with nodeIdCounter := st.nodeIdCounter + 1 } := by
  rw [mkGraphNode]
  split
  · split
    · rfl
    · split
      · rfl
      · split <;> rfl
  · rfl

/-- The constructed node depends on the counter only through its id. -/
theorem mkGraphNode_fst (category ty : String) (st : EditorStore) :
    (mkGraphNode category ty st).1 =
      ((mkGraphNode category ty
        { registryLoaded := st.registryLoaded, nodeCategories := st.nodeCategories }).1).map
        (fun node0 => { node0 with id := st.nodeIdCounter }) := by
  cases hreg : st.registryLoaded
  · simp [mkGraphNode, hreg]
  · cases hcat : lookupAssoc st.nodeCategories category
    · simp [mkGraphNode, hreg, hcat]
    · rename_i cat
      cases hns : cat.nodes
      · simp [mkGraphNode, hreg, hcat, hns]
      · rename_i catalog
        cases hty : lookupAssoc catalog ty
        · simp [mkGraphNode, hreg, hcat, hns, hty]
        · simp [mkGraphNode, hreg, hcat, hns, hty]

/-- The per-entity restoration in terms of an in-flight store. -/
theorem restoredNode_eq (st : EditorStore) (s : SerializedNode) :
    restoredNode st.registryLoaded st.nodeCategories s =
      (mkGraphNode s.category s.type st).1.map
        (fun node0 =>
          { node0 with
            id := s.id
            value := match s.value with | some v => some v | none => node0.value }) := by
  rw [restoredNode, mkGraphNode_fst s.category s.type st]
  cases hd : (mkGraphNode s.category s.type
      { registryLoaded := st.registryLoaded, nodeCategories := st.nodeCategories }).1 with
  | none => rfl
  | some node0 => rfl

/-- Characterization of the node-restore loop: nodes are appended
per-entity via `restoredNode`, the map collects them in order, the
registry and link state are untouched, and the id counter grows past
every restored id. -/
theorem loadNodes_spec :
    ∀ (ss : List SerializedNode) (st : EditorStore) (m : List (Int × GraphNode)),
      (loadNodes ss (st, m)).1.nodes =
        st.nodes ++ ss.filterMap (restoredNode st.registryLoaded st.nodeCategories) ∧
      (loadNodes ss (st, m)).1.links = st.links ∧
      (loadNodes ss (st, m)).1.registryLoaded = st.registryLoaded ∧
      (loadNodes ss (st, m)).1.nodeCategories = st.nodeCategories ∧
      (loadNodes ss (st, m)).1.linkIdCounter = st.linkIdCounter ∧
      (loadNodes ss (st, m)).2 =
        nodeMapOfAux m (ss.filterMap (restoredNode st.registryLoaded st.nodeCategories)) ∧
      st.nodeIdCounter ≤ (loadNodes ss (st, m)).1.nodeIdCounter ∧
      (∀ n ∈ ss.filterMap (restoredNode st.registryLoaded st.nodeCategories),
        n.id < (loadNodes ss (st, m)).1.nodeIdCounter) := by
  intro ss
  induction ss with
  | nil =>
    intro st m
    exact ⟨by simp [loadNodes], rfl, rfl, rfl, rfl, by simp [loadNodes, nodeMapOfAux],
      le_refl _, by simp⟩
  | cons s ss ih =>
    intro st m
    have hpair : mkGraphNode s.category s.type st =
        ((mkGraphNode s.category s.type st).1,
          { st with nodeIdCounter := st.nodeIdCounter + 1 }) := by
      rw [← mkGraphNode_snd s.category s.type st]
    cases hmk : (mkGraphNode s.category s.type st).1 with
    | none =>
      have hres : restoredNode st.registryLoaded st.nodeCategories s = none := by
        rw [restoredNode_eq st s, hmk]
        rfl
      have hstep : loadNodes (s :: ss) (st, m) =
          loadNodes ss ({ st with nodeIdCounter := st.nodeIdCounter + 1 }, m) := by
        simp only [loadNodes, loadNode]
        rw [hpair, hmk]
      rw [hstep]
      obtain ⟨h1, h2, h3, h4, h5, h6, h7, h8⟩ :=
        ih { st with nodeIdCounter := st.nodeIdCounter + 1 } m
      refine ⟨?_, h2, h3, h4, h5, ?_, ?_, ?_⟩
      · rw [h1]
        simp [List.filterMap_cons, hres]
      · rw [h6]
        simp [List.filterMap_cons, hres]
      · refine le_trans ?_ h7
        show st.nodeIdCounter ≤ st.nodeIdCounter + 1
        omega
      · intro n hn
        rw [List.filterMap_cons, hres] at hn
        exact h8 n hn
    | some node0 =>
      have hres : restoredNode st.registryLoaded st.nodeCategories s =
          some { node0 with
            id := s.id
            value := match s.value with | some v => some v | none => node0.value } := by
        rw [restoredNode_eq st s, hmk]
        rfl
      have hstep : loadNodes (s :: ss) (st, m) =
          loadNodes ss
            ({ st with
                nodes := st.nodes ++
                  [{ node0 with
                      id := s.id
                      value := match s.value with | some v => some v | none => node0.value }]
                nodeIdCounter :=
                  if s.id ≥ st.nodeIdCounter + 1 then s.id + 1 else st.nodeIdCounter + 1 },
              mapSetNode m s.id
                { node0 with
                  id := s.id
                  value := match s.value with | some v => some v | none => node0.value }) := by
        simp only [loadNodes, loadNode]
        rw [hpair, hmk]
      rw [hstep]
      obtain ⟨h1, h2, h3, h4, h5, h6, h7, h8⟩ :=
        ih { st with
              nodes := st.nodes ++
                [{ node0 with
                    id := s.id
                    value := match s.value with | some v => some v | none => node0.value }]
              nodeIdCounter :=
                if s.id ≥ st.nodeIdCounter + 1 then s.id + 1 else st.nodeIdCounter + 1 }
          (mapSetNode m s.id
            { node0 with
              id := s.id
              value := match s.value with | some v => some v | none => node0.value })
      refine ⟨?_, h2, h3, h4, h5, ?_, ?_, ?_⟩
      · rw [h1]
        simp [List.filterMap_cons, hres]
      · rw [h6]
        simp [List.filterMap_cons, hres, nodeMapOfAux]
      · refine le_trans ?_ h7
        show st.nodeIdCounter ≤
          if s.id ≥ st.nodeIdCounter + 1 then s.id + 1 else st.nodeIdCounter + 1
        split <;> omega
      · intro n hn
        rw [List.filterMap_cons, hres] at hn
        rcases List.mem_cons.1 hn with rfl | hn2
        · refine lt_of_lt_of_le ?_ h7
          show s.id < if s.id ≥ st.nodeIdCounter + 1 then s.id + 1 else st.nodeIdCounter + 1
          split <;> omega
        · exact h8 n hn2

/-- One step of the connection-restore loop in terms of the per-entity
restoration. -/
theorem loadConn_eq (m : List (Int × GraphNode)) (st : EditorStore) (c : SerializedConnection) :
    loadConn m st c =
      match restoredLink m c with
      | none => st
      | some link =>
        { st with
          links := st.links ++ [link]
          linkIdCounter :=
            if c.id ≥ st.linkIdCounter + 1 then c.id + 1 else st.linkIdCounter + 1 } := by
  cases hf : mapGetNode m c.fromEp.nodeId with
  | none => simp [loadConn, restoredLink, hf]
  | some fn =>
    cases ht : mapGetNode m c.toEp.nodeId with
    | none => simp [loadConn, restoredLink, hf, ht]
    | some tn =>
      cases hfp : endpointPort fn c.fromEp.portType c.fromEp.portIndex with
      | none => simp [loadConn, restoredLink, hf, ht, hfp]
      | some fp =>
        cases htp : endpointPort tn c.toEp.portType c.toEp.portIndex with
        | none => simp [loadConn, restoredLink, hf, ht, hfp, htp]
        | some tp => simp [loadConn, restoredLink, hf, ht, hfp, htp]

/-- A restored link carries the serialized connection's id. -/
theorem restoredLink_id {m : List (Int × GraphNode)} {c : SerializedConnection}
    {link : GraphLink} (h : restoredLink m c = some link) : link.id = c.id := by
  cases hf : mapGetNode m c.fromEp.nodeId with
  | none => simp [restoredLink, hf] at h
  | some fn =>
    cases ht : mapGetNode m c.toEp.nodeId with
    | none => simp [restoredLink, hf, ht] at h
    | some tn =>
      cases hfp : endpointPort fn c.fromEp.portType c.fromEp.portIndex with
      | none => simp [restoredLink, hf, ht, hfp] at h
      | some fp =>
        cases htp : endpointPort tn c.toEp.portType c.toEp.portIndex with
        | none => simp [restoredLink, hf, ht, hfp, htp] at h
        | some tp =>
          simp only [restoredLink, hf, ht, hfp, htp, Option.some.injEq] at h
          subst h
          rfl

/-- Characterization of the connection-restore loop: links are
appended per-entity via `restoredLink`, everything else but the link
counter is untouched, and the counter grows past every restored id. -/
theorem loadConns_spec :
    ∀ (cs : List SerializedConnection) (m : List (Int × GraphNode)) (st : EditorStore),
      (loadConns m cs st).links = st.links ++ cs.filterMap (restoredLink m) ∧
      (loadConns m cs st).nodes = st.nodes ∧
      (loadConns m cs st).registryLoaded = st.registryLoaded ∧
      (loadConns m cs st).nodeCategories = st.nodeCategories ∧
      (loadConns m cs st).nodeIdCounter = st.nodeIdCounter ∧
      st.linkIdCounter ≤ (loadConns m cs st).linkIdCounter ∧
      (∀ l ∈ cs.filterMap (restoredLink m), l.id < (loadConns m cs st).linkIdCounter) := by
  intro cs
  induction cs with
  | nil =>
    intro m st
    exact ⟨by simp [loadConns], rfl, rfl, rfl, rfl, le_refl _, by simp⟩
  | cons c cs ih =>
    intro m st
    cases hres : restoredLink m c with
    | none =>
      have hstep : loadConns m (c :: cs) st = loadConns m cs st := by
        simp only [loadConns, loadConn_eq, hres]
      rw [hstep]
      obtain ⟨h1, h2, h3, h4, h5, h6, h7⟩ := ih m st
      refine ⟨?_, h2, h3, h4, h5, h6, ?_⟩
      · rw [h1]
        simp [List.filterMap_cons, hres]
      · intro l hl
        rw [List.filterMap_cons, hres] at hl
        exact h7 l hl
    | some link =>
      have hstep : loadConns m (c :: cs) st =
          loadConns m cs
            { st with
              links := st.links ++ [link]
              linkIdCounter :=
                if c.id ≥ st.linkIdCounter + 1 then c.id + 1 else st.linkIdCounter + 1 } := by
        simp only [loadConns, loadConn_eq, hres]
      rw [hstep]
      obtain ⟨h1, h2, h3, h4, h5, h6, h7⟩ :=
        ih m
          { st with
            links := st.links ++ [link]
            linkIdCounter :=
              if c.id ≥ st.linkIdCounter + 1 then c.id + 1 else st.linkIdCounter + 1 }
      refine ⟨?_, h2, h3, h4, h5, ?_, ?_⟩
      · rw [h1]
        simp [List.filterMap_cons, hres]
      · refine le_trans ?_ h6
        show st.linkIdCounter ≤
          if c.id ≥ st.linkIdCounter + 1 then c.id + 1 else st.linkIdCounter + 1
        split <;> omega
      · intro l hl
        rw [List.filterMap_cons, hres] at hl
        rcases List.mem_cons.1 hl with rfl | hl2
        · refine lt_of_lt_of_le ?_ h6
          rw [restoredLink_id hres]
          show c.id < if c.id ≥ st.linkIdCounter + 1 then c.id + 1 else st.linkIdCounter + 1
          split <;> omega
        · exact h7 l hl2

/-- Assembled characterization of `loadGraph`: the per-entity restore
phase followed by the `validateConnections` repair on the restored
links. -/
theorem loadGraph_fields (st : EditorStore) (g : GraphData) :
    (loadGraph st g).nodes =
      g.nodes.filterMap (restoredNode st.registryLoaded st.nodeCategories) ∧
    (loadGraph st g).links =
      (g.connections.filterMap (restoredLink
        (nodeMapOf (g.nodes.filterMap
          (restoredNode st.registryLoaded st.nodeCategories))))).filter
        (fun l => decide (l ∉ (validateConnections (loadGraphBody (clear st) g)).1)) ∧
    (∀ n ∈ (loadGraph st g).nodes, n.id < (loadGraph st g).nodeIdCounter) ∧
    (∀ l ∈ (loadGraph st g).links, l.id < (loadGraph st g).linkIdCounter) := by
  obtain ⟨n1, n2, n3, n4, n5, n6, n7, n8⟩ := loadNodes_spec g.nodes (clear st) []
  obtain ⟨c1, c2, c3, c4, c5, c6, c7⟩ :=
    loadConns_spec g.connections (loadNodes g.nodes (clear st, [])).2
      (loadNodes g.nodes (clear st, [])).1
  have hmid : loadGraphBody (clear st) g =
      loadConns (loadNodes g.nodes (clear st, [])).2 g.connections
        (loadNodes g.nodes (clear st, [])).1 := rfl
  have hlg : loadGraph st g = (validateConnections (loadGraphBody (clear st) g)).2 := rfl
  have hreg : (clear st).registryLoaded = st.registryLoaded := rfl
  have hcats : (clear st).nodeCategories = st.nodeCategories := rfl
  have hclearnodes : (clear st).nodes = [] := rfl
  have hclearlinks : (clear st).links = [] := rfl
  rw [hreg, hcats, hclearnodes] at n1
  rw [hreg, hcats] at n6
  rw [hreg, hcats] at n8
  rw [hclearlinks] at n2
  have hmap : (loadNodes g.nodes (clear st, [])).2 =
      nodeMapOf (g.nodes.filterMap (restoredNode st.registryLoaded st.nodeCategories)) := by
    rw [n6]
    rfl
  have hmidnodes : (loadGraphBody (clear st) g).nodes =
      g.nodes.filterMap (restoredNode st.registryLoaded st.nodeCategories) := by
    rw [hmid, c2, n1]
    simp
  have hmidlinks : (loadGraphBody (clear st) g).links =
      g.connections.filterMap (restoredLink
        (nodeMapOf (g.nodes.filterMap (restoredNode st.registryLoaded st.nodeCategories)))) := by
    rw [hmid, c1, n2, hmap]
    simp
  have hnodes : (loadGraph st g).nodes =
      g.nodes.filterMap (restoredNode st.registryLoaded st.nodeCategories) := by
    rw [hlg, validateConnections_snd_nodes, hmidnodes]
  have hlinks : (loadGraph st g).links =
      (g.connections.filterMap (restoredLink
        (nodeMapOf (g.nodes.filterMap
          (restoredNode st.registryLoaded st.nodeCategories))))).filter
        (fun l => decide (l ∉ (validateConnections (loadGraphBody (clear st) g)).1)) := by
    rw [hlg, validateConnections_snd_links, hmidlinks]
  refine ⟨hnodes, hlinks, ?_, ?_⟩
  · intro n hn
    rw [hnodes] at hn
    have hcounter : (loadGraph st g).nodeIdCounter =
        (loadNodes g.nodes (clear st, [])).1.nodeIdCounter := by
      rw [hlg, (validateConnections_snd_counters _).1, hmid, c5]
    rw [hcounter]
    exact n8 n hn
  · intro l hl
    have hl2 : l ∈ (loadGraphBody (clear st) g).links := by
      rw [hlg, validateConnections_snd_links] at hl
      exact (List.mem_filter.1 hl).1
    have hl3 : l ∈ g.connections.filterMap
        (restoredLink (loadNodes g.nodes (clear st, [])).2) := by
      rw [hmidlinks, ← hmap] at hl2
      exact hl2
    have hcounter : (loadGraph st g).linkIdCounter =
        (loadConns (loadNodes g.nodes (clear st, [])).2 g.connections
          (loadNodes g.nodes (clear st, [])).1).linkIdCounter := by
      rw [hlg, (validateConnections_snd_counters _).2, hmid]
    rw [hcounter]
    exact c7 l hl3

/-! ### C9 -/

/-- C9 counterexample: the claim's "all other connections are loaded"
is false.  In `exGDoc`, connection 4 references an existing node id
and in-range port indices on both ends, so its endpoints resolve
against the restored nodes (`restoredLink` succeeds); yet the state
returned by `loadGraph` holds no links at all, because the
`validateConnections` repair run by the trailing `_emitGraphChanged()`
removes the restored exec-to-float link as type-incompatible before
`loadGraph` returns. -/
theorem loadGraph_repair_drops_resolved_connection :
    exConn4 ∈ exGDoc.connections ∧
    (restoredLink (nodeMapOf (exGDoc.nodes.filterMap
      (restoredNode exRegSt.registryLoaded exRegSt.nodeCategories))) exConn4).isSome = true ∧
    (loadGraph exRegSt exGDoc).links = [] := by
  refine ⟨by decide, by decide, by decide⟩

/-- C9 (amended): the restore loops recover per-entity — the restored
nodes are exactly the serialized nodes whose (category, type) resolves
in the loaded catalog (in order, via `restoredNode`, which is `none`
exactly on a failed catalog lookup), and the restored links are
exactly the serialized connections whose node ids and port indices
resolve against the restored-node map (via `restoredLink`); but before
returning, `loadGraph` runs the `validateConnections` repair, so the
final link collection keeps only the restored links that survive it.
Both id counters end strictly above every remaining restored id, so
newly created entities cannot collide with restored ones. -/
theorem loadGraph_per_entity :
    ∀ (st : EditorStore) (g : GraphData),
      (loadGraph st g).nodes =
        g.nodes.filterMap (restoredNode st.registryLoaded st.nodeCategories) ∧
      (loadGraph st g).links =
        (g.connections.filterMap (restoredLink
          (nodeMapOf (g.nodes.filterMap
            (restoredNode st.registryLoaded st.nodeCategories))))).filter
          (fun l => decide (l ∉ (validateConnections (loadGraphBody (clear st) g)).1)) ∧
      (∀ n ∈ (loadGraph st g).nodes, n.id < (loadGraph st g).nodeIdCounter) ∧
      (∀ l ∈ (loadGraph st g).links, l.id < (loadGraph st g).linkIdCounter) :=
  fun st g => loadGraph_fields st g

/-! ### C10 -/

/-- C10: `loadGraph` replaces the whole document — the resulting
state depends only on the loaded registry and the document (every
prior node, link and counter value is discarded), and each restored
entity arises from an entity of the document. -/
theorem loadGraph_replaces_document :
    (∀ (g : GraphData) (st1 st2 : EditorStore),
      st1.registryLoaded = st2.registryLoaded → st1.nodeCategories = st2.nodeCategories →
      loadGraph st1 g = loadGraph st2 g) ∧
    (∀ (st : EditorStore) (g : GraphData),
      (∀ n ∈ (loadGraph st g).nodes, ∃ s ∈ g.nodes,
        restoredNode st.registryLoaded st.nodeCategories s = some n) ∧
      (∀ l ∈ (loadGraph st g).links, ∃ c ∈ g.connections,
        restoredLink (nodeMapOf (g.nodes.filterMap
          (restoredNode st.registryLoaded st.nodeCategories))) c = some l)) := by
  constructor
  · intro g st1 st2 h1 h2
    have hc : clear st1 = clear st2 := by
      simp [clear, h1, h2]
    show (validateConnections (loadGraphBody (clear st1) g)).2 =
      (validateConnections (loadGraphBody (clear st2) g)).2
    rw [hc]
  · intro st g
    obtain ⟨hnodes, hlinks, -, -⟩ := loadGraph_fields st g
    constructor
    · intro n hn
      rw [hnodes] at hn
      exact List.mem_filterMap.1 hn
    · intro l hl
      rw [hlinks] at hl
      exact List.mem_filterMap.1 (List.mem_filter.1 hl).1

/-- Witness for C10: the same document loaded over an empty store and
over a store holding unrelated prior content yields identical states. -/
theorem loadGraph_replaces_document_witness :
    loadGraph exRegSt exGDoc = loadGraph exJunkSt exGDoc :=
  loadGraph_replaces_document.1 exGDoc exRegSt exJunkSt rfl rfl

/-! ### Fuel monotonicity and adequacy of the code generator -/

/-- A successful data-resolution fold transfers to any resolver that
preserves the successes of the original. -/
theorem resolveDataWith_trans (f g : GraphNode → Port → Option String)
    (hfg : ∀ n p s, f n p = some s → g n p = some s) :
    ∀ (ls : List GraphLink) (code r : List Char),
      resolveDataWith f ls code = some r → resolveDataWith g ls code = some r := by
  intro ls
  induction ls with
  | nil => intro code r h; exact h
  | cons l ls ih =>
    intro code r h
    cases hc : f l.fromPort.node l.fromPort.port with
    | none => simp only [resolveDataWith, hc] at h; exact Option.noConfusion h
    | some v =>
      simp only [resolveDataWith, hc] at h
      simp only [resolveDataWith, hfg _ _ _ hc]
      exact ih _ _ h

/-- One extra unit of fuel preserves any successful value resolution. -/
theorem getNodeOutputCode_mono_succ (st : EditorStore) :
    ∀ (fuel : Nat) (n : GraphNode) (p : Port) (s : String),
      getNodeOutputCode st fuel n p = some s → getNodeOutputCode st (fuel + 1) n p = some s := by
  intro fuel
  induction fuel with
  | zero => intro n p s h; simp [getNodeOutputCode] at h
  | succ k ih =>
    intro n p s h
    rw [getNodeOutputCode] at h ⊢
    cases hft : findNodeType st n.type with
    | none => simp only [hft] at h ⊢; exact h
    | some d =>
      cases hoc : outDefCode d p with
      | none => simp only [hft, hoc] at h ⊢; exact h
      | some tmpl =>
        simp only [hft, hoc] at h ⊢
        cases hrd : resolveDataWith (fun n2 p2 => getNodeOutputCode st k n2 p2)
            (dataLinks st n) (valueSubst n tmpl.data) with
        | none => rw [hrd] at h; exact Option.noConfusion h
        | some r =>
          rw [hrd] at h
          rw [resolveDataWith_trans _ _ (fun a b c hx => ih a b c hx) _ _ _ hrd]
          exact h

/-- Fuel monotonicity of value resolution. -/
theorem getNodeOutputCode_mono (st : EditorStore) {f1 f2 : Nat} (hle : f1 ≤ f2) :
    ∀ (n : GraphNode) (p : Port) (s : String),
      getNodeOutputCode st f1 n p = some s → getNodeOutputCode st f2 n p = some s := by
  induction hle with
  | refl => exact fun n p s h => h
  | step h2 ih => exact fun n p s h => getNodeOutputCode_mono_succ st _ n p s (ih n p s h)

/-- The data-resolution fold succeeds once every resolver call does. -/
theorem resolveDataWith_isSome (f : GraphNode → Port → Option String) :
    ∀ (ls : List GraphLink),
      (∀ l ∈ ls, ∃ s, f l.fromPort.node l.fromPort.port = some s) →
      ∀ code, ∃ r, resolveDataWith f ls code = some r := by
  intro ls
  induction ls with
  | nil => intro _ code; exact ⟨code, rfl⟩
  | cons l ls ih =>
    intro h code
    obtain ⟨s, hs⟩ := h l (List.mem_cons_self _ _)
    obtain ⟨r, hr⟩ := ih (fun x hx => h x (List.mem_cons_of_mem _ hx)) (replaceAllC (phOf l.toPort.port) s.data code)
    exact ⟨r, by simp only [resolveDataWith, hs]; exact hr⟩

/-- A single fuel value adequate for finitely many resolver calls. -/
theorem getNodeOutputCode_uniform (st : EditorStore) :
    ∀ (ls : List GraphLink),
      (∀ l ∈ ls, ∃ f s, getNodeOutputCode st f l.fromPort.node l.fromPort.port = some s) →
      ∃ F, ∀ l ∈ ls, ∃ s, getNodeOutputCode st F l.fromPort.node l.fromPort.port = some s := by
  intro ls
  induction ls with
  | nil => exact fun _ => ⟨0, by simp⟩
  | cons l ls ih =>
    intro h
    obtain ⟨f1, s1, h1⟩ := h l (List.mem_cons_self _ _)
    obtain ⟨F, hF⟩ := ih (fun x hx => h x (List.mem_cons_of_mem _ hx))
    refine ⟨max f1 F, ?_⟩
    intro x hx
    rcases List.mem_cons.1 hx with rfl | hx2
    · exact ⟨s1, getNodeOutputCode_mono st (le_max_left _ _) _ _ _ h1⟩
    · obtain ⟨s2, h2⟩ := hF x hx2
      exact ⟨s2, getNodeOutputCode_mono st (le_max_right _ _) _ _ _ h2⟩

/-- Value resolution terminates on every node whose data-dependency
predecessors are accessible — the formal content of "the data-link
dependency relation is acyclic at this node". -/
theorem getNodeOutputCode_adequate (st : EditorStore) :
    ∀ a : GraphNode, Acc (DataEdge st) a →
      ∀ p, ∃ f s, getNodeOutputCode st f a p = some s := by
  intro a hacc
  induction hacc with
  | intro a ha ih =>
    intro p
    have hls : ∀ l ∈ dataLinks st a,
        ∃ f s, getNodeOutputCode st f l.fromPort.node l.fromPort.port = some s := by
      intro l hl
      have hmem := List.mem_filter.1 hl
      have hcond := of_decide_eq_true hmem.2
      exact ih l.fromPort.node ⟨l, hmem.1, hcond.1, hcond.2, rfl⟩ l.fromPort.port
    obtain ⟨F, hF⟩ := getNodeOutputCode_uniform st _ hls
    cases hft : findNodeType st a.type with
    | none => exact ⟨1, "", by simp [getNodeOutputCode, hft]⟩
    | some d =>
      cases hoc : outDefCode d p with
      | none => exact ⟨1, "", by simp [getNodeOutputCode, hft, hoc]⟩
      | some tmpl =>
        obtain ⟨r, hr⟩ := resolveDataWith_isSome (fun n2 p2 => getNodeOutputCode st F n2 p2)
          (dataLinks st a) hF (valueSubst a tmpl.data)
        refine ⟨F + 1, finishOut a r, ?_⟩
        simp only [getNodeOutputCode, hft, hoc, hr]
        rfl

/-- A successful exec-splice fold transfers to any compiler that
preserves the successes of the original. -/
theorem spliceExecWith_trans (f g : GraphNode → List Int → Option (String × List Int))
    (hfg : ∀ n pr r, f n pr = some r → g n pr = some r) :
    ∀ (ls : List GraphLink) (code : List Char) (pr : List Int) (r : List Char × List Int),
      spliceExecWith f ls code pr = some r → spliceExecWith g ls code pr = some r := by
  intro ls
  induction ls with
  | nil => intro code pr r h; exact h
  | cons l ls ih =>
    intro code pr r h
    cases hc : f l.toPort.node pr with
    | none => simp only [spliceExecWith, hc] at h; exact Option.noConfusion h
    | some v =>
      obtain ⟨s, pr2⟩ := v
      simp only [spliceExecWith, hc] at h
      simp only [spliceExecWith, hfg _ _ _ hc]
      exact ih _ _ _ h

/-- One extra unit of fuel preserves any successful compilation. -/
theorem generateNodeCode_mono_succ (st : EditorStore) :
    ∀ (fuel : Nat) (n : GraphNode) (pr : List Int) (r : String × List Int),
      generateNodeCode st fuel n pr = some r → generateNodeCode st (fuel + 1) n pr = some r := by
  intro fuel
  induction fuel with
  | zero => intro n pr r h; simp [generateNodeCode] at h
  | succ k ih =>
    intro n pr r h
    by_cases hmem : n.id ∈ pr
    · simp only [generateNodeCode, if_pos hmem] at h ⊢
      exact h
    · rw [generateNodeCode, if_neg hmem] at h ⊢
      cases hft : findNodeType st n.type with
      | none => simp only [hft] at h ⊢; exact h
      | some d =>
        cases hec : execInCode d with
        | none => simp only [hft, hec] at h ⊢; exact h
        | some tmpl =>
          simp only [hft, hec] at h ⊢
          cases hrd : resolveDataWith (fun n2 p2 => getNodeOutputCode st k n2 p2)
              (dataLinks st n) (valueSubst n tmpl.data) with
          | none => simp only [hrd] at h; exact Option.noConfusion h
          | some code =>
            cases hsp : spliceExecWith (fun n2 pr2 => generateNodeCode st k n2 pr2)
                (execLinks st n) code (n.id :: pr) with
            | none => simp only [hrd, hsp] at h; exact Option.noConfusion h
            | some v =>
              obtain ⟨code2, pr2⟩ := v
              simp only [hrd, hsp] at h
              have hrd2 := resolveDataWith_trans _ _
                (fun a b c hx => getNodeOutputCode_mono_succ st k a b c hx) _ _ _ hrd
              have hsp2 := spliceExecWith_trans _ _ (fun a b c hx => ih a b c hx) _ _ _ _ hsp
              simp only [hrd2, hsp2]
              exact h

/-- Fuel monotonicity of node compilation. -/
theorem generateNodeCode_mono (st : EditorStore) {f1 f2 : Nat} (hle : f1 ≤ f2) :
    ∀ (n : GraphNode) (pr : List Int) (r : String × List Int),
      generateNodeCode st f1 n pr = some r → generateNodeCode st f2 n pr = some r := by
  induction hle with
  | refl => exact fun n pr r h => h
  | step h2 ih => exact fun n pr r h => generateNodeCode_mono_succ st _ n pr r (ih n pr r h)

/-- Exec links only target nodes whose id is in `execTargetIds`. -/
theorem execLinks_target_mem (st : EditorStore) (n : GraphNode) :
    ∀ l ∈ execLinks st n, l.toPort.node.id ∈ execTargetIds st := by
  intro l hl
  have hmem := List.mem_filter.1 hl
  have hcond := of_decide_eq_true hmem.2
  simp only [execTargetIds, List.mem_toFinset, List.mem_map]
  exact ⟨l, List.mem_filter.2 ⟨hmem.1, by simp [hcond.2]⟩, rfl⟩

/-- List inclusion transfers to the finsets of members. -/
theorem toFinset_subset_of_subset {l1 l2 : List Int} (h : l1 ⊆ l2) :
    l1.toFinset ⊆ l2.toFinset := by
  intro x hx
  rw [List.mem_toFinset] at hx ⊢
  exact h hx

/-- Node compilation terminates for every node and visited set,
provided the graph's data-dependency relation is well-founded; the
induction measure is the number of exec-link targets not yet
visited. -/
theorem generateNodeCode_adequate (st : EditorStore) (hW : WellFounded (DataEdge st)) :
    ∀ (k : Nat) (n : GraphNode) (pr : List Int),
      (execTargetIds st \ insert n.id pr.toFinset).card = k →
      ∃ f r, generateNodeCode st f n pr = some r := by
  intro k
  induction k using Nat.strong_induction_on with
  | _ k ih =>
    intro n pr hcard
    by_cases hmem : n.id ∈ pr
    · exact ⟨1, ("", pr), by simp [generateNodeCode, hmem]⟩
    · have H : ∀ (t : GraphNode) (pr1 : List Int),
          insert n.id pr.toFinset ⊆ pr1.toFinset → t.id ∈ execTargetIds st →
          ∃ f r, generateNodeCode st f t pr1 = some r := by
        intro t pr1 hsub htid
        by_cases hmem1 : t.id ∈ pr1
        · exact ⟨1, ("", pr1), by simp [generateNodeCode, hmem1]⟩
        · have hnotf : t.id ∉ pr1.toFinset := by
            rw [List.mem_toFinset]
            exact hmem1
          have hssub : (execTargetIds st \ insert t.id pr1.toFinset) ⊂
              (execTargetIds st \ insert n.id pr.toFinset) := by
            constructor
            · intro x hx
              rw [Finset.mem_sdiff] at hx ⊢
              refine ⟨hx.1, fun hc => hx.2 ?_⟩
              rw [Finset.mem_insert] at hc ⊢
              rcases hc with rfl | hc
              · exact Or.inr (hsub (Finset.mem_insert_self _ _))
              · exact Or.inr (hsub (Finset.mem_insert_of_mem hc))
            · intro hc
              have ht1 : t.id ∈ execTargetIds st \ insert n.id pr.toFinset := by
                rw [Finset.mem_sdiff]
                refine ⟨htid, fun hc2 => hnotf (hsub hc2)⟩
              have ht2 := hc ht1
              rw [Finset.mem_sdiff, Finset.mem_insert] at ht2
              exact ht2.2 (Or.inl rfl)
          have hlt : (execTargetIds st \ insert t.id pr1.toFinset).card < k := by
            rw [← hcard]
            exact Finset.card_lt_card hssub
          exact ih _ hlt t pr1 rfl
      have hsplice : ∀ (ls : List GraphLink),
          (∀ l ∈ ls, l.toPort.node.id ∈ execTargetIds st) →
          ∀ (pr1 : List Int), insert n.id pr.toFinset ⊆ pr1.toFinset →
          ∀ (code : List Char),
          ∃ f r, spliceExecWith (fun n2 pr3 => generateNodeCode st f n2 pr3) ls code pr1 = some r := by
        intro ls
        induction ls with
        | nil => intro _ pr1 _ code; exact ⟨0, (code, pr1), rfl⟩
        | cons l ls ihs =>
          intro hmemT pr1 hsub code
          obtain ⟨f1, r1, hcall⟩ := H l.toPort.node pr1 hsub (hmemT l (List.mem_cons_self _ _))
          obtain ⟨s1, pr2⟩ := r1
          have hgrow : pr1 ⊆ pr2 := generateNodeCode_grows st f1 _ _ _ _ hcall
          have hsub2 : insert n.id pr.toFinset ⊆ pr2.toFinset :=
            hsub.trans (toFinset_subset_of_subset hgrow)
          obtain ⟨f2, r2, hrest⟩ :=
            ihs (fun x hx => hmemT x (List.mem_cons_of_mem _ hx)) pr2 hsub2
              (spliceOneC (phOf l.fromPort.port) s1.data code)
          refine ⟨max f1 f2, r2, ?_⟩
          have hcall2 : generateNodeCode st (max f1 f2) l.toPort.node pr1 = some (s1, pr2) :=
            generateNodeCode_mono st (le_max_left _ _) _ _ _ hcall
          simp only [spliceExecWith, hcall2]
          exact spliceExecWith_trans _ _
            (fun a b c hx => generateNodeCode_mono st (le_max_right f1 f2) a b c hx) _ _ _ _ hrest
      have hdata : ∀ l ∈ dataLinks st n,
          ∃ f s, getNodeOutputCode st f l.fromPort.node l.fromPort.port = some s :=
        fun l _ => getNodeOutputCode_adequate st _ (hW.apply _) _
      obtain ⟨FD, hFD⟩ := getNodeOutputCode_uniform st _ hdata
      cases hft : findNodeType st n.type with
      | none => exact ⟨1, ("", n.id :: pr), by simp [generateNodeCode, hmem, hft]⟩
      | some d =>
        cases hec : execInCode d with
        | none => exact ⟨1, ("", n.id :: pr), by simp [generateNodeCode, hmem, hft, hec]⟩
        | some tmpl =>
          obtain ⟨rD, hrD⟩ := resolveDataWith_isSome (fun n2 p2 => getNodeOutputCode st FD n2 p2)
            (dataLinks st n) hFD (valueSubst n tmpl.data)
          obtain ⟨FS, rS, hsp⟩ := hsplice (execLinks st n) (execLinks_target_mem st n)
            (n.id :: pr) (by simp) rD
          obtain ⟨code2, pr2⟩ := rS
          refine ⟨max FD FS + 1, (finishNode n code2, pr2), ?_⟩
          rw [generateNodeCode, if_neg hmem]
          simp only [hft, hec]
          have hrD2 : resolveDataWith (fun n2 p2 => getNodeOutputCode st (max FD FS) n2 p2)
              (dataLinks st n) (valueSubst n tmpl.data) = some rD :=
            resolveDataWith_trans _ _
              (fun a b c hx => getNodeOutputCode_mono st (le_max_left _ _) a b c hx) _ _ _ hrD
          have hsp2 : spliceExecWith (fun n2 pr3 => generateNodeCode st (max FD FS) n2 pr3)
              (execLinks st n) rD (n.id :: pr) = some (code2, pr2) :=
            spliceExecWith_trans _ _
              (fun a b c hx => generateNodeCode_mono st (le_max_right _ _) a b c hx) _ _ _ _ hsp
          simp only [hrD2, hsp2]

/-- A successful per-entry fold transfers to any compiler preserving
the successes of the original. -/
theorem genEntries_trans (f g : GraphNode → List Int → Option (String × List Int))
    (hfg : ∀ n pr r, f n pr = some r → g n pr = some r) :
    ∀ (es : List GraphNode) (pr : List Int) (r : List String × List Int),
      genEntries f es pr = some r → genEntries g es pr = some r := by
  intro es
  induction es with
  | nil => intro pr r h; exact h
  | cons e es ih =>
    intro pr r h
    cases hc : f e pr with
    | none => simp only [genEntries, hc] at h; exact Option.noConfusion h
    | some v =>
      obtain ⟨s, pr2⟩ := v
      simp only [genEntries, hc] at h
      cases hrest : genEntries f es pr2 with
      | none => simp only [hrest] at h; exact Option.noConfusion h
      | some w =>
        obtain ⟨ss, pr3⟩ := w
        simp only [hrest] at h
        simp only [genEntries, hfg _ _ _ hc, ih _ _ hrest]
        exact h

/-- The per-entry fold terminates on well-founded data dependencies. -/
theorem genEntries_adequate (st : EditorStore) (hW : WellFounded (DataEdge st)) :
    ∀ (es : List GraphNode) (pr : List Int),
      ∃ f r, genEntries (fun n pr2 => generateNodeCode st f n pr2) es pr = some r := by
  intro es
  induction es with
  | nil => intro pr; exact ⟨0, ([], pr), rfl⟩
  | cons e es ih =>
    intro pr
    obtain ⟨f1, r1, h1⟩ := generateNodeCode_adequate st hW _ e pr rfl
    obtain ⟨s1, pr2⟩ := r1
    obtain ⟨f2, r2, h2⟩ := ih pr2
    obtain ⟨ss, pr3⟩ := r2
    have h1m := generateNodeCode_mono st (le_max_left f1 f2) _ _ _ h1
    have h2m := genEntries_trans _ _
      (fun a b c hx => generateNodeCode_mono st (le_max_right f1 f2) a b c hx) _ _ _ h2
    exact ⟨max f1 f2, (s1 :: ss, pr3), by simp only [genEntries, h1m, h2m]⟩

/-- The two cyclically-dependent value nodes never resolve, at any
fuel: the unguarded data-flow recursion diverges on this graph. -/
theorem exDivSt_value_diverges :
    ∀ fuel, getNodeOutputCode exDivSt fuel exValA exValOut = none ∧
      getNodeOutputCode exDivSt fuel exValB exValOut = none := by
  intro fuel
  induction fuel with
  | zero => exact ⟨rfl, rfl⟩
  | succ k ih =>
    constructor
    · simp only [getNodeOutputCode,
        show findNodeType exDivSt exValA.type = some exDefVal from rfl,
        show outDefCode exDefVal exValOut = some "${src}" from rfl,
        show dataLinks exDivSt exValA = [exLinkBA] from rfl,
        show valueSubst exValA ("${src}" : String).data = ("${src}" : String).data from rfl,
        resolveDataWith,
        show exLinkBA.fromPort.node = exValB from rfl,
        show exLinkBA.fromPort.port = exValOut from rfl,
        ih.2, Option.map_none']
    · simp only [getNodeOutputCode,
        show findNodeType exDivSt exValB.type = some exDefVal from rfl,
        show outDefCode exDefVal exValOut = some "${src}" from rfl,
        show dataLinks exDivSt exValB = [exLinkAB] from rfl,
        show valueSubst exValB ("${src}" : String).data = ("${src}" : String).data from rfl,
        resolveDataWith,
        show exLinkAB.fromPort.node = exValA from rfl,
        show exLinkAB.fromPort.port = exValOut from rfl,
        ih.1, Option.map_none']

/-- The linkless example graph has no data edges at all. -/
theorem exDoneSt_dataEdge_wf : WellFounded (DataEdge exDoneSt) := by
  constructor
  intro a
  constructor
  intro b hb
  obtain ⟨l, hl, -, -, -⟩ := hb
  simp [exDoneSt] at hl

/-! ### C4 -/

/-- C4: the only recursion bound of the compiler is the visited-set
guard on control flow — `generate` terminates (the fuel embedding
reaches a result) on every graph whose data-link dependency relation
is well-founded (acyclic on the finitely many linked nodes), however
the exec links are wired; while the unguarded data-flow recursion
`getNodeOutputCode` diverges — returns fuel exhaustion at every fuel —
on the concrete graph of two value-only nodes feeding each other. -/
theorem generate_termination_guard :
    (∀ (st : EditorStore) (now : String), WellFounded (DataEdge st) →
      ∃ fuel r, generate st now fuel = some r) ∧
    (∀ fuel, getNodeOutputCode exDivSt fuel exValA exValOut = none) := by
  constructor
  · intro st now hW
    by_cases hemp : (entryNodes st).isEmpty
    · exact ⟨0, Except.error "No entry point nodes (exec input without incoming exec).",
        by rw [generate, if_pos hemp]⟩
    · obtain ⟨f, r, hg⟩ := genEntries_adequate st hW (entryNodes st) []
      obtain ⟨ss, pr⟩ := r
      refine ⟨f, Except.ok (header now ++ String.intercalate "\n\n"
        (ss.filter (fun s => decide (s ≠ "")))), ?_⟩
      rw [generate, if_neg hemp]
      simp only [hg]
  · exact fun fuel => (exDivSt_value_diverges fuel).1

/-- Witness for C4: termination on a concrete exec-only graph with a
trivially well-founded data relation, and divergence of the cyclic
value pair at a concrete fuel. -/
theorem generate_termination_guard_witness :
    (∃ fuel r, generate exDoneSt "T" fuel = some r) ∧
    getNodeOutputCode exDivSt 5 exValA exValOut = none :=
  ⟨generate_termination_guard.1 exDoneSt "T" exDoneSt_dataEdge_wf,
   generate_termination_guard.2 5⟩

end GraphEd
